import Mathlib

/-!
Verification development for the DBM pipeline orchestrator
(`dbm_ica/run_dbm_minc.py`).

The script is a coordination layer: it resolves and validates paths,
opens a temporary workspace, runs a fixed chain of external commands
through a single `run_command` helper (which supports a dry-run mode and
converts a nonzero exit status into an abort of the whole run), and
copies selected artifacts into an output subdirectory.

Shallow embedding used here:
* a `pathlib.Path` is a list of directory components plus a final name
  (`PyPath`); `Path.stem` / `Path.suffix` are reproduced exactly
  (split at the last dot of the final component, with Python's corner
  cases for leading/trailing dots);
* the filesystem, the `process_path` resolution (`expanduser().absolute()`),
  the temporary-directory name, and the exit codes of external commands
  are an abstract `World` (an oracle): the program only observes them
  through the queries modelled as `World` fields;
* one run is a list of `Step`s (external commands plus the single
  python-level output-directory check) folded by `runSteps`, which
  produces the event trace (printed command lines, executed commands,
  error reports) and the overall result, mirroring `run_command` and
  `print_error_and_exit` / `sys.exit`.
-/

namespace DbmMinc

/-- A final path component (Python string), as a list of characters. -/
abbrev Name := List Char

/-- Shorthand to build a `Name` from a string literal. -/
def nm (s : String) : Name := s.toList

/-- A `pathlib.Path`: the directory components and the final component
(`Path.name`).  All paths handled by the script are absolute (they come
out of `process_path` or `TemporaryDirectory`); the leading root is
abstracted into the first directory component. -/
structure PyPath where
  dirs : List Name
  name : Name
deriving DecidableEq

/-- Split a name at its last dot: `splitLastDot cs = some (pre, post)`
with `cs = pre ++ '.' :: post` and no dot in `post`; `none` if there is
no dot.  This mirrors `name.rfind('.')`. -/
def splitLastDot : Name → Option (Name × Name)
  | [] => none
  | c :: rest =>
    match splitLastDot rest with
    | some (pre, post) => some (c :: pre, post)
    | none => if c = '.' then some ([], rest) else none

/-- `Path.stem` of a final component: Python keeps the whole name unless
the last dot is at an index `i` with `0 < i < len(name) - 1`. -/
def pyStem (n : Name) : Name :=
  match splitLastDot n with
  | some (pre, post) => if pre ≠ [] ∧ post ≠ [] then pre else n
  | none => n

/-- `Path.suffix` of a final component (the extension, dot included). -/
def pySuffix (n : Name) : Name :=
  match splitLastDot n with
  | some (pre, post) => if pre ≠ [] ∧ post ≠ [] then '.' :: post else []
  | none => []

/-- `str.endswith` for the final component.  For the absolute paths of
the script, `str(path).endswith(pat)` with a slash-free nonempty `pat`
agrees with `path.name.endswith(pat)`: `str(path)` is `dirs ++ '/' ++ name`
and `pat` contains no `'/'`. -/
def strEndsWith (n pat : Name) : Bool := pat.isSuffixOf n

/-- Render the directory components (each followed by a slash). -/
def dirsStr (ds : List Name) : Name := ds.foldr (fun d acc => d ++ '/' :: acc) []

/-- `str(path)`, used when a `Path` is handed to `run_command` as an
argument (`str(arg)`). -/
def pathStr (p : PyPath) : Name := dirsStr p.dirs ++ p.name

/-- `dirpath / name` for a single further component. -/
def joinDir (p : PyPath) (c : Name) : PyPath := ⟨p.dirs ++ [p.name], c⟩

/-- `path.with_suffix(ext)`: replace the extension of the final
component.  (Line 186 of the source joins `dpath_tmp` with an absolute
path, which in `pathlib` simply yields the absolute right operand, so it
is exactly `fpath_raw_nii.with_suffix(EXT_MINC)`.) -/
def withSuffix (p : PyPath) (ext : Name) : PyPath := ⟨p.dirs, pyStem p.name ++ ext⟩

/-- The separator used by `add_suffix`'s default argument. -/
def SEP_DOT : Name := nm "."

/-- `add_suffix(path, suffix, sep)` from the source:
strip a leading `sep` from `suffix`, then return
`path.parent / (stem + sep + suffix + ext)`. -/
def add_suffix (p : PyPath) (suffix : Name) (sep : Option Name) : PyPath :=
  match sep with
  | some sp =>
    let suffix := if sp.isPrefixOf suffix then suffix.drop sp.length else suffix
    ⟨p.dirs, pyStem p.name ++ sp ++ suffix ++ pySuffix p.name⟩
  | none => ⟨p.dirs, pyStem p.name ++ suffix ++ pySuffix p.name⟩

/-! Constants of the script. -/

def ENV_DNAME_BEAST_LIB : Name := nm "beast-library-1.1"

def DNAME_TEMPLATE_MAP : List (Name × Name) :=
  [(nm "mni_icbm152_t1_tal_nlin_sym_09c", nm "icbm152_model_09c"),
   (nm "mni_icbm152_t1_tal_nlin_sym_09a", nm "icbm152_model_09a")]

def SUFFIX_TEMPLATE_MASK : Name := nm "_mask"

def EXT_NIFTI : Name := nm ".nii"

def EXT_GZIP : Name := nm ".gz"

def EXT_MINC : Name := nm ".mnc"

def EXT_TRANSFORM : Name := nm ".xfm"

def SUFFIX_DENOISED : Name := nm "denoised"

def SUFFIX_NORM : Name := nm "norm"

def SUFFIX_MASK : Name := nm "mask"

def SUFFIX_EXTRACTED : Name := nm "extracted"

def SUFFIX_NONLINEAR : Name := nm "nl"

def SUFFIX_DBM : Name := nm "dbm"

def SUFFIX_RESHAPED : Name := nm "reshaped"

/-- The CLI-level configuration reaching `run_dbm_minc` (raw strings for
paths, already-parsed options).  `templateId` is the source's
`template_prefix` option. -/
structure Cfg where
  fpath_nifti : Name
  dpath_out : Name
  dpath_share : Option Name
  dpath_templates : Option Name
  templateId : Name
  dpath_beast_lib : Option Name
  beast_conf : Name
  save_all : Bool
  overwrite : Bool
  dry_run : Bool
  verbosity : Nat
  quiet : Bool
deriving DecidableEq

/-- The abstract outside world: path resolution (`process_path`),
filesystem queries, the temporary directory handed out by
`TemporaryDirectory`, its listing at copy time (`iterdir`), and the exit
code returned by the i-th actually executed external command. -/
structure World where
  resolve : Name → PyPath
  pathExists : PyPath → Bool
  dirNonEmpty : PyPath → Bool
  oracle : Nat → Nat
  tmpDir : PyPath
  tmpFiles : List Name

/-- The distinct terminal error reports of the script (each one is a
`print_error_and_exit` site; `templateKeyError` is the `KeyError` from
the template lookup, reported through the generic `except Exception`
handler). -/
inductive ErrKind where
  | shareDirMissing
  | templateKeyError
  | niftiNotFound
  | invalidFormat
  | templateNotFound
  | templateMaskNotFound
  | beastLibNotFound
  | outputConflict
  | cmdFailed (args : List Name) (code : Nat)
deriving DecidableEq

/-- The process exit code of each error path: the failed command's own
exit code for `ExternalCommandFailure`, else `sys.exit(1)`. -/
def errCode : ErrKind → Nat
  | ErrKind.cmdFailed _ c => c
  | _ => 1

/-- The resolved paths produced by the validation phase (lines 116-159). -/
structure Resolved where
  fpath_nifti : PyPath
  dpath_out : PyPath
  dpath_templates : PyPath
  fpath_template : PyPath
  fpath_template_mask : PyPath
  dpath_beast_lib : PyPath
deriving DecidableEq

deriving instance DecidableEq for Except

/-- The filesystem checks of lines 134-159, applied once the four
directories are resolved. -/
def validateChecks (cfg : Cfg) (w : World)
    (fnifti dout templates beast : PyPath) : Except ErrKind Resolved :=
  if !w.pathExists fnifti then Except.error ErrKind.niftiNotFound
  else if !(strEndsWith fnifti.name EXT_NIFTI
            || strEndsWith fnifti.name (EXT_NIFTI ++ EXT_GZIP)) then
    Except.error ErrKind.invalidFormat
  else if !w.pathExists (joinDir templates (cfg.templateId ++ EXT_MINC)) then
    Except.error ErrKind.templateNotFound
  else if !w.pathExists (add_suffix
      (joinDir templates (cfg.templateId ++ EXT_MINC))
      SUFFIX_TEMPLATE_MASK none) then
    Except.error ErrKind.templateMaskNotFound
  else if !w.pathExists beast then Except.error ErrKind.beastLibNotFound
  else Except.ok ⟨fnifti, dout, templates,
    joinDir templates (cfg.templateId ++ EXT_MINC),
    add_suffix (joinDir templates (cfg.templateId ++ EXT_MINC))
      SUFFIX_TEMPLATE_MASK none, beast⟩

/-- The path-resolution and validation phase (lines 116-159): returns
the resolved paths or the error the script reports. -/
def validate (cfg : Cfg) (w : World) : Except ErrKind Resolved :=
  let fnifti := w.resolve cfg.fpath_nifti
  let dout := w.resolve cfg.dpath_out
  match cfg.dpath_share, cfg.dpath_templates, cfg.dpath_beast_lib with
  | none, none, _ => Except.error ErrKind.shareDirMissing
  | none, some _, none => Except.error ErrKind.shareDirMissing
  | none, some t, some b =>
    validateChecks cfg w fnifti dout (w.resolve t) (w.resolve b)
  | some sh, tOpt, bOpt =>
    let share := w.resolve sh
    let beast := match bOpt with
      | none => joinDir share ENV_DNAME_BEAST_LIB
      | some b => w.resolve b
    match tOpt with
    | some t => validateChecks cfg w fnifti dout (w.resolve t) beast
    | none =>
      match List.lookup cfg.templateId DNAME_TEMPLATE_MAP with
      | none => Except.error ErrKind.templateKeyError
      | some d => validateChecks cfg w fnifti dout (joinDir share d) beast

/-- A `run_command` argument before `str` conversion: a plain string or
a `Path`. -/
inductive Tok where
  | s (v : Name)
  | p (v : PyPath)
deriving DecidableEq

/-- `str(arg)`. -/
def Tok.str : Tok → Name
  | Tok.s v => v
  | Tok.p v => pathStr v

/-- One call to `run_command`: the raw tokens, the optional stdout
redirection target (a file opened in the workspace), and the verbosity
in force at the call site. -/
structure Cmd where
  toks : List Tok
  redirect : Option PyPath
  verb : Nat
deriving DecidableEq

/-- The argument list actually passed to `subprocess.run`:
`[str(arg) for arg in args if arg != '']` (only empty plain strings are
dropped; a `Path` never compares equal to `''`). -/
def cmdArgs (c : Cmd) : List Name :=
  (c.toks.filter (fun t => decide (t ≠ Tok.s []))).map Tok.str

/-- Observable events of one run: a `[RUN]`-prefixed echo of an
assembled command line, an actually executed external command, and an
`[ERROR]`-prefixed report. -/
inductive Ev where
  | runEcho (args : List Name)
  | exec (args : List Name) (redirect : Option PyPath)
  | errEcho (e : ErrKind)
deriving DecidableEq

/-- Number of actually executed external commands in a trace. -/
def execs : List Ev → Nat
  | [] => 0
  | Ev.exec _ _ :: rest => execs rest + 1
  | _ :: rest => execs rest

/-- The `[RUN]` echoes of a trace, in order. -/
def runEchoes : List Ev → List (List Name) :=
  List.filterMap fun e =>
    match e with
    | Ev.runEcho a => some a
    | _ => none

/-- The argument lists of the executed commands of a trace, in order. -/
def execArgsOf : List Ev → List (List Name) :=
  List.filterMap fun e =>
    match e with
    | Ev.exec a _ => some a
    | _ => none

/-- One `run_command` call (lines 81-102; `silent` is never set by the
script).  Echo iff `verbosity > 0 or dry_run`; in dry-run mode nothing
is executed; otherwise the command runs and a nonzero exit status from
the oracle aborts with `ExternalCommandFailure` carrying that status. -/
def runCmdStep (dry : Bool) (o : Nat → Nat) (c : Cmd) (es : List Ev) :
    Except ErrKind Unit × List Ev :=
  let args := cmdArgs c
  let es1 := if 0 < c.verb ∨ dry = true then es ++ [Ev.runEcho args] else es
  if dry = true then (Except.ok (), es1)
  else
    let es2 := es1 ++ [Ev.exec args c.redirect]
    if o (execs es) = 0 then (Except.ok (), es2)
    else (Except.error (ErrKind.cmdFailed args (o (execs es))), es2)

/-- A step of the run: an external command, or the python-level
output-directory check of lines 176-183 (`ok = false` aborts with the
given error). -/
inductive Step where
  | run (c : Cmd)
  | guard (ok : Bool) (e : ErrKind)
deriving DecidableEq

/-- Fold a list of steps, stopping at the first failure, threading the
event trace. -/
def runSteps (dry : Bool) (o : Nat → Nat) : List Step → List Ev → Except ErrKind Unit × List Ev
  | [], es => (Except.ok (), es)
  | Step.run c :: rest, es =>
    match runCmdStep dry o c es with
    | (Except.ok _, es') => runSteps dry o rest es'
    | (Except.error e, es') => (Except.error e, es')
  | Step.guard ok e :: rest, es =>
    if ok = true then runSteps dry o rest es else (Except.error e, es)

/-- The result a step list yields when no external command fails (all
commands succeed; only a failed guard can abort). -/
def stepsRes : List Step → Except ErrKind Unit
  | [] => Except.ok ()
  | Step.run _ :: rest => stepsRes rest
  | Step.guard ok e :: rest => if ok = true then stepsRes rest else Except.error e

/-- The command lines planned by a step list, up to its first failing
guard. -/
def guardedPlan : List Step → List (List Name)
  | [] => []
  | Step.run c :: rest => cmdArgs c :: guardedPlan rest
  | Step.guard ok _ :: rest => if ok = true then guardedPlan rest else []

/-- The commands reachable in a step list (those not cut off by a failed
guard); an over-approximation of what any run of the list can touch. -/
def reachedRuns : List Step → List Cmd
  | [] => []
  | Step.run c :: rest => c :: reachedRuns rest
  | Step.guard ok _ :: rest => if ok = true then reachedRuns rest else []

/-- The trace of a non-dry run of a step list in which every command
exits 0. -/
def wetTrace : List Step → List Ev
  | [] => []
  | Step.run c :: rest =>
    (if 0 < c.verb then [Ev.runEcho (cmdArgs c)] else [])
      ++ Ev.exec (cmdArgs c) c.redirect :: wetTrace rest
  | Step.guard ok _ :: rest => if ok = true then wetTrace rest else []

/-- Number of command steps in a step list. -/
def countRuns : List Step → Nat
  | [] => 0
  | Step.run _ :: rest => countRuns rest + 1
  | Step.guard _ _ :: rest => countRuns rest

/-- `timestamp()` (line 104): `run_command(['date'])`. -/
def dateCmd (v : Nat) : Cmd := ⟨[Tok.s (nm "date")], none, v⟩

/-- The trace of the initial `timestamp()` in a successful non-dry run
at verbosity `v`. -/
def dateEvs (v : Nat) : List Ev :=
  (if 0 < v then [Ev.runEcho [nm "date"]] else []) ++ [Ev.exec [nm "date"] none]

/-- All workspace-relative artifact paths of one run (lines 161-302),
derived from the resolved input, the configuration and the temporary
directory. -/
structure Arts where
  raw_nii : PyPath
  out_sub : PyPath
  raw : PyPath
  denoised : PyPath
  norm : PyPath
  norm_xfm : PyPath
  mask : PyPath
  conf : PyPath
  extracted : PyPath
  nonlinear : PyPath
  nl_xfm : PyPath
  dbm : PyPath
  dbm_reshaped : PyPath
  dbm_nii : PyPath
deriving DecidableEq

/-- Path derivations of the stage chain.  The order of fields follows
the source: materialized scan, output subdirectory, minc conversion,
denoise, normalize (+ transform), mask, beast configuration, extract,
nonlinear (+ transform), dbm, reshape, nifti conversion. -/
def mkArts (cfg : Cfg) (r : Resolved) (tmp : PyPath) : Arts :=
  let raw_nii :=
    if pySuffix r.fpath_nifti.name = EXT_GZIP
    then joinDir tmp (pyStem r.fpath_nifti.name)
    else joinDir tmp r.fpath_nifti.name
  let out_sub := joinDir r.dpath_out (pyStem raw_nii.name)
  let raw := withSuffix raw_nii EXT_MINC
  let denoised := add_suffix raw SUFFIX_DENOISED (some SEP_DOT)
  let norm := add_suffix denoised SUFFIX_NORM (some SEP_DOT)
  let norm_xfm := withSuffix norm EXT_TRANSFORM
  let mask := add_suffix norm SUFFIX_MASK (some SEP_DOT)
  let conf := joinDir r.dpath_beast_lib cfg.beast_conf
  let extracted := add_suffix norm SUFFIX_EXTRACTED (some SEP_DOT)
  let nonlinear := add_suffix extracted SUFFIX_NONLINEAR (some SEP_DOT)
  let nl_xfm := withSuffix nonlinear EXT_TRANSFORM
  let dbm := add_suffix nonlinear SUFFIX_DBM (some SEP_DOT)
  let dbm_reshaped := add_suffix dbm SUFFIX_RESHAPED (some SEP_DOT)
  let dbm_nii := withSuffix dbm_reshaped EXT_NIFTI
  ⟨raw_nii, out_sub, raw, denoised, norm, norm_xfm, mask, conf,
   extracted, nonlinear, nl_xfm, dbm, dbm_reshaped, dbm_nii⟩

/-- The materialize stage (lines 164-172): decompress a gzipped input
with `zcat`, standard output redirected into the workspace file, or
symlink an uncompressed input. -/
def matCmd (r : Resolved) (a : Arts) (v : Nat) : Cmd :=
  if pySuffix r.fpath_nifti.name = EXT_GZIP
  then ⟨[Tok.s (nm "zcat"), Tok.p r.fpath_nifti], some a.raw_nii, v⟩
  else ⟨[Tok.s (nm "ln"), Tok.s (nm "-s"), Tok.p r.fpath_nifti, Tok.p a.raw_nii], none, v⟩

/-- The output-directory check (lines 176-183):
`mkdir(parents=True, exist_ok=overwrite)` succeeds unless the directory
already exists with `overwrite` unset, in which case a `FileExistsError`
is caught and the run aborts only if the directory is non-empty. -/
def outGuardOk (cfg : Cfg) (w : World) (a : Arts) : Bool :=
  !w.pathExists a.out_sub || cfg.overwrite || !w.dirNonEmpty a.out_sub

/-- The copy set (lines 285-294): all of the workspace, or the curated
five files. -/
def copyList (cfg : Cfg) (w : World) (a : Arts) : List PyPath :=
  if cfg.save_all = true
  then w.tmpFiles.map (joinDir w.tmpDir)
  else [a.denoised, a.mask, a.extracted, a.nonlinear, a.dbm_nii]

/-- The steps inside the temporary-workspace block (lines 161-307), in
source order. -/
def wsSteps (cfg : Cfg) (w : World) (r : Resolved) : List Step :=
  let v := if cfg.quiet = true then 0 else cfg.verbosity
  let a := mkArts cfg r w.tmpDir
  [Step.run (matCmd r a v),
   Step.guard (outGuardOk cfg w a) ErrKind.outputConflict,
   Step.run ⟨[Tok.s (nm "nii2mnc"), Tok.p a.raw_nii, Tok.p a.raw], none, v⟩,
   Step.run ⟨[Tok.s (nm "mincnlm"), Tok.s (nm "-verbose"),
              Tok.p a.raw, Tok.p a.denoised], none, v⟩,
   Step.run ⟨[Tok.s (nm "beast_normalize"), Tok.s (nm "-modeldir"),
              Tok.p r.dpath_templates, Tok.s (nm "-modelname"),
              Tok.s cfg.templateId, Tok.p a.denoised, Tok.p a.norm,
              Tok.p a.norm_xfm], none, v⟩,
   Step.run ⟨[Tok.s (nm "mincbeast"), Tok.s (nm "-fill"), Tok.s (nm "-median"),
              Tok.s (nm "-conf"), Tok.p a.conf, Tok.s (nm "-verbose"),
              Tok.p r.dpath_beast_lib, Tok.p a.norm, Tok.p a.mask], none, v⟩,
   Step.run ⟨[Tok.s (nm "minccalc"), Tok.s (nm "-verbose"),
              Tok.s (nm "-expression"), Tok.s (nm "A[0]*A[1]"),
              Tok.p a.norm, Tok.p a.mask, Tok.p a.extracted], none, v⟩,
   Step.run ⟨[Tok.s (nm "nlfit_s"), Tok.s (nm "-verbose"),
              Tok.s (nm "-source_mask"), Tok.p a.mask,
              Tok.s (nm "-target_mask"), Tok.p r.fpath_template_mask,
              Tok.p a.extracted, Tok.p r.fpath_template,
              Tok.p a.nl_xfm, Tok.p a.nonlinear], none, v⟩,
   Step.run ⟨[Tok.s (nm "pipeline_dbm.pl"), Tok.s (nm "-verbose"),
              Tok.s (nm "--model"), Tok.p r.fpath_template,
              Tok.p a.nl_xfm, Tok.p a.dbm], none, v⟩,
   Step.run ⟨[Tok.s (nm "mincreshape"), Tok.s (nm "-dimorder"),
              Tok.s (nm "xspace,yspace,zspace"),
              Tok.p a.dbm, Tok.p a.dbm_reshaped], none, v⟩,
   Step.run ⟨[Tok.s (nm "mnc2nii"), Tok.s (nm "-nii"),
              Tok.p a.dbm_reshaped, Tok.p a.dbm_nii], none, v⟩,
   Step.run ⟨[Tok.s (nm "ls"), Tok.s (nm "-lh"), Tok.p w.tmpDir], none, v⟩]
  ++ (copyList cfg w a).map (fun src =>
       Step.run ⟨[Tok.s (nm "cp"), Tok.s (nm "-vfp"),
                  Tok.p src, Tok.p a.out_sub], none, v⟩)
  ++ [Step.run ⟨[Tok.s (nm "ls"), Tok.s (nm "-lh"), Tok.p a.out_sub], none, v⟩,
      Step.run (dateCmd v)]

/-- The observable outcome of one whole process run. -/
structure RunOutcome where
  events : List Ev
  exit_code : Nat
  wsCreated : Bool
  wsRemoved : Bool
deriving DecidableEq

/-- The whole `run_dbm_minc` body: the initial `timestamp()` (which runs
before `--quiet` is folded into the verbosity and before any
validation), the validation phase, then the workspace block.  The
`TemporaryDirectory` context manager removes the workspace on every exit
path out of the block, including the `SystemExit` raised by
`print_error_and_exit` (which the `except Exception` clause does not
catch). -/
def runPipeline (cfg : Cfg) (w : World) : RunOutcome :=
  let p1 := runSteps cfg.dry_run w.oracle [Step.run (dateCmd cfg.verbosity)] []
  match p1.1 with
  | Except.error e => ⟨p1.2 ++ [Ev.errEcho e], errCode e, false, false⟩
  | Except.ok _ =>
    match validate cfg w with
    | Except.error e => ⟨p1.2 ++ [Ev.errEcho e], errCode e, false, false⟩
    | Except.ok r =>
      let p2 := runSteps cfg.dry_run w.oracle (wsSteps cfg w r) p1.2
      match p2.1 with
      | Except.error e => ⟨p2.2 ++ [Ev.errEcho e], errCode e, true, true⟩
      | Except.ok _ => ⟨p2.2, 0, true, true⟩

/-- `cfg` with dry-run switched off (used to compare a dry run with the
real run it stands for). -/
def wetCfg (c : Cfg) : Cfg :=
  ⟨c.fpath_nifti, c.dpath_out, c.dpath_share, c.dpath_templates,
   c.templateId, c.dpath_beast_lib, c.beast_conf, c.save_all,
   c.overwrite, false, c.verbosity, c.quiet⟩

/-- `w` with an oracle that lets every external command succeed. -/
def zeroWorld (w : World) : World :=
  ⟨w.resolve, w.pathExists, w.dirNonEmpty, fun _ => 0, w.tmpDir, w.tmpFiles⟩

/-- The source path of a `cp` invocation, if an event is one. -/
def cpSrcOf : Ev → Option Name
  | Ev.exec (c0 :: _ :: src :: _) _ => if c0 = nm "cp" then some src else none
  | _ => none

/-- The sources of the `cp` invocations actually executed, in order. -/
def cpSrcs (evs : List Ev) : List Name := evs.filterMap cpSrcOf

/-! Concrete configurations and worlds, used to instantiate the
universally quantified theorems below on closed inputs. -/

/-- A concrete resolution oracle: every raw string resolves below one
root directory. -/
def resolve0 : Name → PyPath := fun s => ⟨[nm "root"], s⟩

def scanP : PyPath := ⟨[nm "root"], nm "scan001.nii.gz"⟩

def scanPlainP : PyPath := ⟨[nm "root"], nm "scan001.nii"⟩

def templateP : PyPath :=
  ⟨[nm "root", nm "share", nm "icbm152_model_09c"],
   nm "mni_icbm152_t1_tal_nlin_sym_09c.mnc"⟩

def templateMaskP : PyPath :=
  ⟨[nm "root", nm "share", nm "icbm152_model_09c"],
   nm "mni_icbm152_t1_tal_nlin_sym_09c_mask.mnc"⟩

def beastP : PyPath := ⟨[nm "root", nm "share"], nm "beast-library-1.1"⟩

def outSubP : PyPath := ⟨[nm "root", nm "out"], nm "scan001"⟩

/-- A configuration over the shared-data root, with the default template
and BEaST settings. -/
def mkCfg (scan : Name) (saveAll ow dry quiet : Bool) (verb : Nat) : Cfg :=
  ⟨scan, nm "out", some (nm "share"), none,
   nm "mni_icbm152_t1_tal_nlin_sym_09c", none, nm "default.1mm.conf",
   saveAll, ow, dry, verb, quiet⟩

/-- A world given by the list of existing paths, the list of non-empty
directories, and the exit-code oracle. -/
def mkWorld (exList nonEmptyList : List PyPath) (orc : Nat → Nat) : World :=
  ⟨resolve0, fun p => decide (p ∈ exList), fun p => decide (p ∈ nonEmptyList),
   orc, ⟨[nm "tmp"], nm "t0"⟩, []⟩

/-- Filesystem with every resource the gzipped-scan run needs. -/
def goodFs : List PyPath := [scanP, templateP, templateMaskP, beastP]

/-- The resolved paths of the gzipped-scan configuration. -/
def resolvedGz : Resolved :=
  ⟨scanP, ⟨[nm "root"], nm "out"⟩,
   ⟨[nm "root", nm "share"], nm "icbm152_model_09c"⟩,
   templateP, templateMaskP, beastP⟩

/-- The resolved paths of the uncompressed-scan configuration. -/
def resolvedPlain : Resolved :=
  ⟨scanPlainP, ⟨[nm "root"], nm "out"⟩,
   ⟨[nm "root", nm "share"], nm "icbm152_model_09c"⟩,
   templateP, templateMaskP, beastP⟩

/-- Filesystem with every resource the uncompressed-scan run needs. -/
def goodFsPlain : List PyPath := [scanPlainP, templateP, templateMaskP, beastP]

/-- Exit-code oracle: every command succeeds. -/
def zOr : Nat → Nat := fun _ => 0

/-- Exit-code oracle: the `k`-th executed command exits with `c`, all
others succeed. -/
def failAt (k c : Nat) : Nat → Nat := fun i => if i = k then c else 0

/-- The save-subset configuration of the end-to-end copy scenario. -/
def c8cfg : Cfg := mkCfg (nm "scan001.nii.gz") false false false false 2

/-- Its world: all required resources present, empty output tree. -/
def c8w : World := mkWorld goodFs [] zOr

/-- Its artifact paths. -/
def c8a : Arts := mkArts c8cfg resolvedGz c8w.tmpDir

/-! ### Lemmas about the `pathlib` name operations -/

theorem splitLastDot_of_not_mem {cs : Name} (h : '.' ∉ cs) :
    splitLastDot cs = none := by
  induction cs with
  | nil => rfl
  | cons c rest ih =>
    have h1 : ¬c = '.' := fun hc => h (by simp [hc])
    have h2 : '.' ∉ rest := fun hm => h (List.mem_cons_of_mem c hm)
    simp [splitLastDot, ih h2, h1]

theorem not_mem_of_splitLastDot_none :
    ∀ {cs : Name}, splitLastDot cs = none → '.' ∉ cs := by
  intro cs
  induction cs with
  | nil => intro _ h; exact absurd h (List.not_mem_nil _)
  | cons c rest ih =>
    intro h
    rcases hr : splitLastDot rest with _ | pr
    · by_cases hc : c = '.'
      · simp [splitLastDot, hr, hc] at h
      · intro hm
        rcases List.mem_cons.mp hm with h' | h'
        · exact hc h'.symm
        · exact ih hr h'
    · simp [splitLastDot, hr] at h

theorem splitLastDot_sound :
    ∀ {cs pre post : Name}, splitLastDot cs = some (pre, post) →
      cs = pre ++ '.' :: post ∧ '.' ∉ post := by
  intro cs
  induction cs with
  | nil => intro pre post h; simp [splitLastDot] at h
  | cons c rest ih =>
    intro pre post h
    rcases hr : splitLastDot rest with _ | ⟨p, q⟩
    · by_cases hc : c = '.'
      · simp [splitLastDot, hr, hc] at h
        refine ⟨by simp [hc, h.1.symm, h.2.symm], ?_⟩
        have := not_mem_of_splitLastDot_none hr
        rw [← h.2]; exact this
      · simp [splitLastDot, hr, hc] at h
    · simp [splitLastDot, hr] at h
      rcases h with ⟨h1, h2⟩
      rcases ih hr with ⟨hq1, hq2⟩
      constructor
      · rw [← h1, ← h2] at *
        simpa using congrArg (c :: ·) hq1
      · rw [← h2]; exact hq2

theorem splitLastDot_append {pre post : Name} (h : '.' ∉ post) :
    splitLastDot (pre ++ '.' :: post) = some (pre, post) := by
  induction pre with
  | nil => simp [splitLastDot, splitLastDot_of_not_mem h]
  | cons c cs ih => simp [splitLastDot, ih]

theorem pyStem_append_pySuffix (n : Name) : pyStem n ++ pySuffix n = n := by
  unfold pyStem pySuffix
  rcases hs : splitLastDot n with _ | ⟨pre, post⟩
  · simp
  · rcases splitLastDot_sound hs with ⟨h1, _⟩
    by_cases hc : pre ≠ [] ∧ post ≠ []
    · simp [hc, h1]
    · simp [hc]

theorem pySuffix_append {pre post : Name}
    (hpre : pre ≠ []) (hpost : post ≠ []) (h : '.' ∉ post) :
    pySuffix (pre ++ '.' :: post) = '.' :: post := by
  unfold pySuffix
  rw [splitLastDot_append h]
  simp [hpre, hpost]

theorem pyStem_append {pre post : Name}
    (hpre : pre ≠ []) (hpost : post ≠ []) (h : '.' ∉ post) :
    pyStem (pre ++ '.' :: post) = pre := by
  unfold pyStem
  rw [splitLastDot_append h]
  simp [hpre, hpost]

theorem pyStem_ne_nil {n : Name} (h : n ≠ []) : pyStem n ≠ [] := by
  unfold pyStem
  rcases hs : splitLastDot n with _ | ⟨pre, post⟩
  · exact h
  · by_cases hc : pre ≠ [] ∧ post ≠ []
    · simp [hc]
    · simpa [hc] using h

theorem pySuffix_cases (n : Name) :
    pySuffix n = [] ∨
      (∃ t, pySuffix n = '.' :: t ∧ '.' ∉ t ∧ t ≠ [] ∧ pyStem n ≠ []) := by
  unfold pySuffix pyStem
  rcases hs : splitLastDot n with _ | ⟨pre, post⟩
  · left; rfl
  · rcases splitLastDot_sound hs with ⟨_, hnd⟩
    by_cases hc : pre ≠ [] ∧ post ≠ []
    · right
      refine ⟨post, by simp [hc], hnd, hc.2, by simp [hc]⟩
    · left; simp [hc]

/-- Cancellation around the last dot: two decompositions whose right
parts start with the only remaining dot agree. -/
theorem nodot_cancel :
    ∀ {s t a b : Name}, '.' ∉ s → '.' ∉ t →
      s ++ '.' :: a = t ++ '.' :: b → s = t ∧ a = b := by
  intro s
  induction s with
  | nil =>
    intro t a b _ ht h
    cases t with
    | nil => simpa using h
    | cons c cs =>
      simp at h
      exact absurd (List.mem_cons.mpr (Or.inl h.1)) ht
  | cons c cs ih =>
    intro t a b hs ht h
    cases t with
    | nil =>
      simp at h
      exact absurd (List.mem_cons.mpr (Or.inl h.1.symm)) hs
    | cons d ds =>
      simp at h
      have hs' : '.' ∉ cs := fun hm => hs (List.mem_cons_of_mem c hm)
      have ht' : '.' ∉ ds := fun hm => ht (List.mem_cons_of_mem d hm)
      rcases ih hs' ht' h.2 with ⟨h1, h2⟩
      exact ⟨by simp [h.1, h1], h2⟩

/-! ### Lemmas about the command runner -/

theorem execs_append (a b : List Ev) : execs (a ++ b) = execs a + execs b := by
  induction a with
  | nil => simp [execs]
  | cons e rest ih =>
    cases e <;> simp [execs, ih]
    omega

theorem runCmdStep_dry (o : Nat → Nat) (c : Cmd) (es : List Ev) :
    runCmdStep true o c es = (Except.ok (), es ++ [Ev.runEcho (cmdArgs c)]) := by
  simp [runCmdStep]

theorem runCmdStep_wet_ok {o : Nat → Nat} {c : Cmd} {es : List Ev}
    (h : o (execs es) = 0) :
    runCmdStep false o c es =
      (Except.ok (),
        (if 0 < c.verb then es ++ [Ev.runEcho (cmdArgs c)] else es)
          ++ [Ev.exec (cmdArgs c) c.redirect]) := by
  simp [runCmdStep, h]

theorem runCmdStep_wet_fail {o : Nat → Nat} {c : Cmd} {es : List Ev}
    (h : ¬o (execs es) = 0) :
    runCmdStep false o c es =
      (Except.error (ErrKind.cmdFailed (cmdArgs c) (o (execs es))),
        (if 0 < c.verb then es ++ [Ev.runEcho (cmdArgs c)] else es)
          ++ [Ev.exec (cmdArgs c) c.redirect]) := by
  simp [runCmdStep, h]

theorem execs_echoExec (P : Prop) [Decidable P] (es : List Ev) (a : List Name)
    (r : Option PyPath) :
    execs ((if P then es ++ [Ev.runEcho a] else es) ++ [Ev.exec a r])
      = execs es + 1 := by
  by_cases h : P <;> simp [h, execs_append, execs]

theorem execs_runCmdStep_le (dry : Bool) (o : Nat → Nat) (c : Cmd)
    (es : List Ev) :
    execs (runCmdStep dry o c es).2 ≤ execs es + 1 := by
  unfold runCmdStep
  by_cases hd : dry = true <;> by_cases hv : 0 < c.verb <;>
    by_cases ho : o (execs es) = 0 <;>
      simp [hd, hv, ho, execs_append, execs]

theorem runSteps_cons_run (dry : Bool) (o : Nat → Nat) (c : Cmd)
    (rest : List Step) (es : List Ev) :
    runSteps dry o (Step.run c :: rest) es =
      match runCmdStep dry o c es with
      | (Except.ok _, es2) => runSteps dry o rest es2
      | (Except.error e, es2) => (Except.error e, es2) := rfl

theorem runSteps_cons_guard_true (dry : Bool) (o : Nat → Nat) (e : ErrKind)
    (rest : List Step) (es : List Ev) :
    runSteps dry o (Step.guard true e :: rest) es = runSteps dry o rest es := rfl

theorem runSteps_cons_guard_false (dry : Bool) (o : Nat → Nat) (e : ErrKind)
    (rest : List Step) (es : List Ev) :
    runSteps dry o (Step.guard false e :: rest) es = (Except.error e, es) := rfl

theorem execs_runSteps_le (dry : Bool) (o : Nat → Nat) :
    ∀ (steps : List Step) (es : List Ev),
      execs (runSteps dry o steps es).2 ≤ execs es + countRuns steps := by
  intro steps
  induction steps with
  | nil => intro es; simp [runSteps, countRuns]
  | cons st rest ih =>
    intro es
    cases st with
    | run c =>
      rcases h : runCmdStep dry o c es with ⟨r, es2⟩
      have hle : execs es2 ≤ execs es + 1 := by
        have := execs_runCmdStep_le dry o c es
        rw [h] at this
        exact this
      cases r with
      | ok _ =>
        rw [runSteps_cons_run, h]
        have := ih es2
        simp only [countRuns]
        omega
      | error e =>
        rw [runSteps_cons_run, h]
        simp only [countRuns]
        omega
    | guard g e =>
      cases g with
      | true =>
        rw [runSteps_cons_guard_true]
        have := ih es
        simp only [countRuns]
        omega
      | false =>
        rw [runSteps_cons_guard_false]
        simp only [countRuns]
        omega

theorem runSteps_stop {o : Nat → Nat} {k : Nat}
    (h0 : ∀ i, i < k → o i = 0) (hk : o k ≠ 0) :
    ∀ (steps : List Step) (es : List Ev), execs es ≤ k →
      execs (runSteps false o steps es).2 ≤ k ∨
        (execs (runSteps false o steps es).2 = k + 1 ∧
          ∃ args, (runSteps false o steps es).1
            = Except.error (ErrKind.cmdFailed args (o k))) := by
  intro steps
  induction steps with
  | nil => intro es hes; left; simpa [runSteps] using hes
  | cons st rest ih =>
    intro es hes
    cases st with
    | run c =>
      by_cases hlt : execs es < k
      · have hz : o (execs es) = 0 := h0 _ hlt
        rw [runSteps_cons_run, runCmdStep_wet_ok hz]
        exact ih _ (by rw [execs_echoExec]; omega)
      · have hek : execs es = k := Nat.le_antisymm hes (Nat.not_lt.mp hlt)
        have hnz : ¬o (execs es) = 0 := by rw [hek]; exact hk
        rw [runSteps_cons_run, runCmdStep_wet_fail hnz]
        right
        refine ⟨?_, ⟨cmdArgs c, by rw [hek]⟩⟩
        rw [execs_echoExec, hek]
    | guard g e =>
      cases g with
      | true =>
        rw [runSteps_cons_guard_true]
        exact ih es hes
      | false =>
        left
        rw [runSteps_cons_guard_false]
        exact hes

theorem runSteps_dry (o : Nat → Nat) :
    ∀ (steps : List Step) (es : List Ev),
      runSteps true o steps es
        = (stepsRes steps, es ++ (guardedPlan steps).map Ev.runEcho) := by
  intro steps
  induction steps with
  | nil => intro es; simp [runSteps, stepsRes, guardedPlan]
  | cons st rest ih =>
    intro es
    cases st with
    | run c =>
      simp only [runSteps_cons_run, runCmdStep_dry]
      rw [ih]
      simp [stepsRes, guardedPlan]
    | guard g e =>
      cases g with
      | true =>
        rw [runSteps_cons_guard_true, ih]
        simp [stepsRes, guardedPlan]
      | false =>
        rw [runSteps_cons_guard_false]
        simp [stepsRes, guardedPlan]

theorem runSteps_zero :
    ∀ (steps : List Step) (es : List Ev),
      runSteps false (fun _ => 0) steps es
        = (stepsRes steps, es ++ wetTrace steps) := by
  intro steps
  induction steps with
  | nil => intro es; simp [runSteps, stepsRes, wetTrace]
  | cons st rest ih =>
    intro es
    cases st with
    | run c =>
      simp only [runSteps_cons_run,
        @runCmdStep_wet_ok (fun _ => (0 : Nat)) c es rfl]
      rw [ih]
      by_cases hv : 0 < c.verb <;> simp [hv, stepsRes, wetTrace]
    | guard g e =>
      cases g with
      | true =>
        rw [runSteps_cons_guard_true, ih]
        simp [stepsRes, wetTrace]
      | false =>
        rw [runSteps_cons_guard_false]
        simp [stepsRes, wetTrace]

theorem exec_mem_runCmdStep {dry : Bool} {o : Nat → Nat} {c : Cmd}
    {es : List Ev} {args : List Name} {rd : Option PyPath}
    (h : Ev.exec args rd ∈ (runCmdStep dry o c es).2) :
    Ev.exec args rd ∈ es ∨ (args = cmdArgs c ∧ rd = c.redirect) := by
  unfold runCmdStep at h
  by_cases hd : dry = true <;> by_cases hv : 0 < c.verb <;>
    by_cases ho : o (execs es) = 0 <;>
      simp [hd, hv, ho] at h <;> tauto

theorem echo_mem_runCmdStep {dry : Bool} {o : Nat → Nat} {c : Cmd}
    {es : List Ev} {args : List Name}
    (h : Ev.runEcho args ∈ (runCmdStep dry o c es).2) :
    Ev.runEcho args ∈ es ∨ args = cmdArgs c := by
  unfold runCmdStep at h
  by_cases hd : dry = true <;> by_cases hv : 0 < c.verb <;>
    by_cases ho : o (execs es) = 0 <;>
      simp [hd, hv, ho] at h <;> tauto

theorem errEcho_mem_runCmdStep {dry : Bool} {o : Nat → Nat} {c : Cmd}
    {es : List Ev} {e : ErrKind}
    (h : Ev.errEcho e ∈ (runCmdStep dry o c es).2) : Ev.errEcho e ∈ es := by
  unfold runCmdStep at h
  by_cases hd : dry = true <;> by_cases hv : 0 < c.verb <;>
    by_cases ho : o (execs es) = 0 <;>
      simp [hd, hv, ho] at h <;> tauto

theorem exec_mem_runSteps {dry : Bool} {o : Nat → Nat} :
    ∀ {steps : List Step} {es : List Ev} {args : List Name} {rd : Option PyPath},
      Ev.exec args rd ∈ (runSteps dry o steps es).2 →
        Ev.exec args rd ∈ es ∨
          ∃ c, c ∈ reachedRuns steps ∧ args = cmdArgs c ∧ rd = c.redirect := by
  intro steps
  induction steps with
  | nil => intro es args rd h; left; simpa [runSteps] using h
  | cons st rest ih =>
    intro es args rd h
    cases st with
    | run c =>
      rcases hrc : runCmdStep dry o c es with ⟨r, es2⟩
      have hmem2 : Ev.exec args rd ∈ es2 →
          Ev.exec args rd ∈ es ∨ (args = cmdArgs c ∧ rd = c.redirect) := by
        intro hm
        exact exec_mem_runCmdStep (by rw [hrc]; exact hm)
      cases r with
      | error e =>
        simp only [runSteps_cons_run, hrc] at h
        rcases hmem2 h with h' | h'
        · left; exact h'
        · right; exact ⟨c, by simp [reachedRuns], h'.1, h'.2⟩
      | ok _ =>
        simp only [runSteps_cons_run, hrc] at h
        rcases ih h with h' | ⟨c', hc', ha, hr⟩
        · rcases hmem2 h' with h'' | h''
          · left; exact h''
          · right; exact ⟨c, by simp [reachedRuns], h''.1, h''.2⟩
        · right; exact ⟨c', by simp [reachedRuns, hc'], ha, hr⟩
    | guard g e =>
      cases g with
      | true =>
        rw [runSteps_cons_guard_true] at h
        rcases ih h with h' | ⟨c', hc', ha, hr⟩
        · left; exact h'
        · right; exact ⟨c', by simp [reachedRuns, hc'], ha, hr⟩
      | false =>
        rw [runSteps_cons_guard_false] at h
        left; exact h

theorem echo_mem_runSteps {dry : Bool} {o : Nat → Nat} :
    ∀ {steps : List Step} {es : List Ev} {args : List Name},
      Ev.runEcho args ∈ (runSteps dry o steps es).2 →
        Ev.runEcho args ∈ es ∨ ∃ c, c ∈ reachedRuns steps ∧ args = cmdArgs c := by
  intro steps
  induction steps with
  | nil => intro es args h; left; simpa [runSteps] using h
  | cons st rest ih =>
    intro es args h
    cases st with
    | run c =>
      rcases hrc : runCmdStep dry o c es with ⟨r, es2⟩
      have hmem2 : Ev.runEcho args ∈ es2 →
          Ev.runEcho args ∈ es ∨ args = cmdArgs c := by
        intro hm
        exact echo_mem_runCmdStep (by rw [hrc]; exact hm)
      cases r with
      | error e =>
        simp only [runSteps_cons_run, hrc] at h
        rcases hmem2 h with h' | h'
        · left; exact h'
        · right; exact ⟨c, by simp [reachedRuns], h'⟩
      | ok _ =>
        simp only [runSteps_cons_run, hrc] at h
        rcases ih h with h' | ⟨c', hc', ha⟩
        · rcases hmem2 h' with h'' | h''
          · left; exact h''
          · right; exact ⟨c, by simp [reachedRuns], h''⟩
        · right; exact ⟨c', by simp [reachedRuns, hc'], ha⟩
    | guard g e =>
      cases g with
      | true =>
        rw [runSteps_cons_guard_true] at h
        rcases ih h with h' | ⟨c', hc', ha⟩
        · left; exact h'
        · right; exact ⟨c', by simp [reachedRuns, hc'], ha⟩
      | false =>
        rw [runSteps_cons_guard_false] at h
        left; exact h

theorem runEchoes_append (a b : List Ev) :
    runEchoes (a ++ b) = runEchoes a ++ runEchoes b := by
  simp [runEchoes, List.filterMap_append]

theorem execArgsOf_append (a b : List Ev) :
    execArgsOf (a ++ b) = execArgsOf a ++ execArgsOf b := by
  simp [execArgsOf, List.filterMap_append]

theorem cpSrcs_append (a b : List Ev) :
    cpSrcs (a ++ b) = cpSrcs a ++ cpSrcs b := by
  simp [cpSrcs, List.filterMap_append]

theorem runEchoes_nil : runEchoes [] = [] := rfl

theorem runEchoes_cons_echo (a : List Name) (rest : List Ev) :
    runEchoes (Ev.runEcho a :: rest) = a :: runEchoes rest := by
  simp [runEchoes]

theorem runEchoes_cons_exec (a : List Name) (r : Option PyPath)
    (rest : List Ev) :
    runEchoes (Ev.exec a r :: rest) = runEchoes rest := by
  simp [runEchoes]

theorem runEchoes_cons_err (e : ErrKind) (rest : List Ev) :
    runEchoes (Ev.errEcho e :: rest) = runEchoes rest := by
  simp [runEchoes]

theorem execArgsOf_nil : execArgsOf [] = [] := rfl

theorem execArgsOf_cons_exec (a : List Name) (r : Option PyPath)
    (rest : List Ev) :
    execArgsOf (Ev.exec a r :: rest) = a :: execArgsOf rest := by
  simp [execArgsOf]

theorem execArgsOf_cons_echo (a : List Name) (rest : List Ev) :
    execArgsOf (Ev.runEcho a :: rest) = execArgsOf rest := by
  simp [execArgsOf]

theorem execArgsOf_cons_err (e : ErrKind) (rest : List Ev) :
    execArgsOf (Ev.errEcho e :: rest) = execArgsOf rest := by
  simp [execArgsOf]

theorem runEchoes_map_runEcho (l : List (List Name)) :
    runEchoes (l.map Ev.runEcho) = l := by
  induction l with
  | nil => rfl
  | cons a rest ih => rw [List.map_cons, runEchoes_cons_echo, ih]

theorem execArgsOf_map_runEcho (l : List (List Name)) :
    execArgsOf (l.map Ev.runEcho) = [] := by
  induction l with
  | nil => rfl
  | cons a rest ih => rw [List.map_cons, execArgsOf_cons_echo, ih]

theorem execs_map_runEcho (l : List (List Name)) :
    execs (l.map Ev.runEcho) = 0 := by
  induction l with
  | nil => rfl
  | cons a rest ih => simpa [execs] using ih

theorem execArgsOf_wetTrace :
    ∀ steps : List Step, execArgsOf (wetTrace steps) = guardedPlan steps := by
  intro steps
  induction steps with
  | nil => rfl
  | cons st rest ih =>
    cases st with
    | run c =>
      by_cases hv : 0 < c.verb <;>
        simp [wetTrace, guardedPlan, hv, execArgsOf_append,
          execArgsOf_cons_exec, execArgsOf_cons_echo, execArgsOf_nil, ih]
    | guard g e =>
      cases g <;> simp [wetTrace, guardedPlan, ih, execArgsOf_nil]

/-! ### Lemmas about the validation phase -/

theorem validateChecks_ok {cfg : Cfg} {w : World}
    {fnifti dout templates beast : PyPath} {r : Resolved}
    (h : validateChecks cfg w fnifti dout templates beast = Except.ok r) :
    r = ⟨fnifti, dout, templates,
         joinDir templates (cfg.templateId ++ EXT_MINC),
         add_suffix (joinDir templates (cfg.templateId ++ EXT_MINC))
           SUFFIX_TEMPLATE_MASK none, beast⟩ ∧
    w.pathExists fnifti = true ∧
    (strEndsWith fnifti.name EXT_NIFTI = true ∨
      strEndsWith fnifti.name (EXT_NIFTI ++ EXT_GZIP) = true) ∧
    w.pathExists (joinDir templates (cfg.templateId ++ EXT_MINC)) = true ∧
    w.pathExists (add_suffix (joinDir templates (cfg.templateId ++ EXT_MINC))
      SUFFIX_TEMPLATE_MASK none) = true ∧
    w.pathExists beast = true := by
  unfold validateChecks at h
  split_ifs at h with h1 h2 h3 h4 h5
  simp at h
  simp at h1 h2 h3 h4 h5
  refine ⟨h.symm, h1, ?_, h3, h4, h5⟩
  by_cases hA : strEndsWith fnifti.name EXT_NIFTI = true
  · exact Or.inl hA
  · exact Or.inr (h2 (by simpa using hA))

theorem validateChecks_error_cases {cfg : Cfg} {w : World}
    {fnifti dout templates beast : PyPath} {e : ErrKind}
    (h : validateChecks cfg w fnifti dout templates beast = Except.error e) :
    e = ErrKind.niftiNotFound ∨ e = ErrKind.invalidFormat ∨
    e = ErrKind.templateNotFound ∨ e = ErrKind.templateMaskNotFound ∨
    e = ErrKind.beastLibNotFound := by
  unfold validateChecks at h
  split_ifs at h <;> simp at h <;> tauto

theorem validate_ok_spec {cfg : Cfg} {w : World} {r : Resolved}
    (h : validate cfg w = Except.ok r) :
    r.fpath_nifti = w.resolve cfg.fpath_nifti ∧
    r.dpath_out = w.resolve cfg.dpath_out ∧
    r.fpath_template = joinDir r.dpath_templates (cfg.templateId ++ EXT_MINC) ∧
    r.fpath_template_mask
      = add_suffix r.fpath_template SUFFIX_TEMPLATE_MASK none ∧
    w.pathExists r.fpath_nifti = true ∧
    (strEndsWith r.fpath_nifti.name EXT_NIFTI = true ∨
      strEndsWith r.fpath_nifti.name (EXT_NIFTI ++ EXT_GZIP) = true) ∧
    w.pathExists r.fpath_template = true ∧
    w.pathExists r.fpath_template_mask = true ∧
    w.pathExists r.dpath_beast_lib = true ∧
    (cfg.dpath_share = none →
      cfg.dpath_templates ≠ none ∧ cfg.dpath_beast_lib ≠ none) := by
  unfold validate at h
  rcases hs : cfg.dpath_share with _ | sh <;>
    rcases ht : cfg.dpath_templates with _ | t <;>
      rcases hb : cfg.dpath_beast_lib with _ | b <;>
        rw [hs, ht, hb] at h <;> simp at h
  · rcases validateChecks_ok h with ⟨hr, h1, h2, h3, h4, h5⟩
    subst hr
    simp [hs, ht, hb]
    exact ⟨h1, h2, h3, h4, h5⟩
  · rcases hl : List.lookup cfg.templateId DNAME_TEMPLATE_MAP with _ | d <;>
      rw [hl] at h <;> simp at h
    rcases validateChecks_ok h with ⟨hr, h1, h2, h3, h4, h5⟩
    subst hr
    simp [hs, ht, hb]
    exact ⟨h1, h2, h3, h4, h5⟩
  · rcases hl : List.lookup cfg.templateId DNAME_TEMPLATE_MAP with _ | d <;>
      rw [hl] at h <;> simp at h
    rcases validateChecks_ok h with ⟨hr, h1, h2, h3, h4, h5⟩
    subst hr
    simp [hs, ht, hb]
    exact ⟨h1, h2, h3, h4, h5⟩
  · rcases validateChecks_ok h with ⟨hr, h1, h2, h3, h4, h5⟩
    subst hr
    simp [hs, ht, hb]
    exact ⟨h1, h2, h3, h4, h5⟩
  · rcases validateChecks_ok h with ⟨hr, h1, h2, h3, h4, h5⟩
    subst hr
    simp [hs, ht, hb]
    exact ⟨h1, h2, h3, h4, h5⟩

theorem validate_error_cases {cfg : Cfg} {w : World} {e : ErrKind}
    (h : validate cfg w = Except.error e) :
    e = ErrKind.shareDirMissing ∨ e = ErrKind.templateKeyError ∨
    e = ErrKind.niftiNotFound ∨ e = ErrKind.invalidFormat ∨
    e = ErrKind.templateNotFound ∨ e = ErrKind.templateMaskNotFound ∨
    e = ErrKind.beastLibNotFound := by
  unfold validate at h
  rcases hs : cfg.dpath_share with _ | sh <;>
    rcases ht : cfg.dpath_templates with _ | t <;>
      rcases hb : cfg.dpath_beast_lib with _ | b <;>
        rw [hs, ht, hb] at h <;> simp at h <;>
          try (rcases hl : List.lookup cfg.templateId DNAME_TEMPLATE_MAP
                with _ | d <;> rw [hl] at h <;> simp at h)
  all_goals
    first
      | (rcases validateChecks_error_cases h with h' | h' | h' | h' | h' <;>
          simp [h'])
      | simp [h.symm]

theorem validate_errCode {cfg : Cfg} {w : World} {e : ErrKind}
    (h : validate cfg w = Except.error e) : errCode e = 1 := by
  rcases validate_error_cases h with h' | h' | h' | h' | h' | h' | h' <;>
    rw [h'] <;> rfl

theorem validate_not_conflict {cfg : Cfg} {w : World}
    (h : validate cfg w = Except.error ErrKind.outputConflict) : False := by
  rcases validate_error_cases h with h' | h' | h' | h' | h' | h' | h' <;>
    exact absurd h' (by simp)

theorem cmdArgs_dateCmd (v : Nat) : cmdArgs (dateCmd v) = [nm "date"] := rfl

theorem dateCmd_verb (v : Nat) : (dateCmd v).verb = v := rfl

theorem dateCmd_redirect (v : Nat) : (dateCmd v).redirect = none := rfl

/-! ### The initial `timestamp()` phase -/

theorem datePhase_dry (o : Nat → Nat) (v : Nat) :
    runSteps true o [Step.run (dateCmd v)] []
      = (Except.ok (), [Ev.runEcho [nm "date"]]) := by
  rw [runSteps_dry]
  simp [stepsRes, guardedPlan, cmdArgs_dateCmd]

theorem datePhase_wet_ok {o : Nat → Nat} (v : Nat) (h : o 0 = 0) :
    runSteps false o [Step.run (dateCmd v)] []
      = (Except.ok (),
         (if 0 < v then [Ev.runEcho [nm "date"]] else [])
           ++ [Ev.exec [nm "date"] none]) := by
  rw [runSteps_cons_run,
    runCmdStep_wet_ok (show o (execs ([] : List Ev)) = 0 from h)]
  simp [runSteps, cmdArgs_dateCmd, dateCmd_verb, dateCmd_redirect, execs]

theorem datePhase_wet_fail {o : Nat → Nat} (v : Nat) (h : ¬o 0 = 0) :
    runSteps false o [Step.run (dateCmd v)] []
      = (Except.error (ErrKind.cmdFailed [nm "date"] (o 0)),
         (if 0 < v then [Ev.runEcho [nm "date"]] else [])
           ++ [Ev.exec [nm "date"] none]) := by
  rw [runSteps_cons_run,
    runCmdStep_wet_fail (show ¬o (execs ([] : List Ev)) = 0 from h)]
  simp [cmdArgs_dateCmd, dateCmd_verb, dateCmd_redirect, execs]

/-- On a validation error the script reports it and exits with code 1
before the workspace is created; besides the initial `date` nothing is
executed. -/
theorem pipeline_valErr {cfg : Cfg} {w : World} {e : ErrKind}
    (hv : validate cfg w = Except.error e) :
    (runPipeline cfg w).wsCreated = false ∧
    execs (runPipeline cfg w).events ≤ 1 ∧
    (∀ args rd, Ev.exec args rd ∈ (runPipeline cfg w).events →
      args = [nm "date"]) ∧
    (cfg.dry_run = true → execs (runPipeline cfg w).events = 0) ∧
    ((cfg.dry_run = true ∨ w.oracle 0 = 0) →
      (runPipeline cfg w).exit_code = errCode e ∧
      Ev.errEcho e ∈ (runPipeline cfg w).events) := by
  cases hd : cfg.dry_run with
  | true =>
    simp only [runPipeline, hd, datePhase_dry, hv]
    refine ⟨by trivial, ?_, ?_, ?_, ?_⟩
    · simp [execs]
    · intro args rd hmem
      simp at hmem
    · intro _; simp [execs]
    · intro _; exact ⟨by trivial, by simp⟩
  | false =>
    by_cases ho : w.oracle 0 = 0
    · simp only [runPipeline, hd, datePhase_wet_ok cfg.verbosity ho, hv]
      refine ⟨by trivial, ?_, ?_, ?_, ?_⟩
      · by_cases hvv : 0 < cfg.verbosity <;>
          simp [hvv, execs_append, execs]
      · intro args rd hmem
        by_cases hvv : 0 < cfg.verbosity <;> simp [hvv] at hmem <;> tauto
      · intro hcontra; simp at hcontra
      · intro _
        refine ⟨by trivial, ?_⟩
        by_cases hvv : 0 < cfg.verbosity <;> simp [hvv]
    · simp only [runPipeline, hd, datePhase_wet_fail cfg.verbosity ho]
      refine ⟨by trivial, ?_, ?_, ?_, ?_⟩
      · by_cases hvv : 0 < cfg.verbosity <;>
          simp [hvv, execs_append, execs]
      · intro args rd hmem
        by_cases hvv : 0 < cfg.verbosity <;> simp [hvv] at hmem <;> tauto
      · intro hcontra; simp at hcontra
      · intro hcase
        rcases hcase with hcase | hcase
        · simp at hcase
        · exact absurd hcase ho

theorem execs_append_errEcho (es : List Ev) (e : ErrKind) :
    execs (es ++ [Ev.errEcho e]) = execs es := by
  simp [execs_append, execs]

/-! ### Claim theorems -/

/-- Claim C1: in execute mode, if the `k`-th external command that the
run invokes returns a nonzero exit status (all earlier ones having
succeeded), then no further external command is invoked (the trace holds
exactly `k + 1` executed commands), the process exit code is that
command's exit status, and the scratch workspace, whenever it was
created, is removed again (for every pipeline-stage command, i.e.
`k ≥ 1`, it was created, and is removed). -/
theorem claim1_stage_failure_aborts (cfg : Cfg) (w : World) (k : Nat)
    (hdry : cfg.dry_run = false)
    (h0 : ∀ i, i < k → w.oracle i = 0) (hk : w.oracle k ≠ 0)
    (hreach : k < execs (runPipeline cfg w).events) :
    execs (runPipeline cfg w).events = k + 1 ∧
    (runPipeline cfg w).exit_code = w.oracle k ∧
    ((runPipeline cfg w).wsCreated = true →
      (runPipeline cfg w).wsRemoved = true) ∧
    (1 ≤ k → (runPipeline cfg w).wsRemoved = true) := by
  rcases hp1 : runSteps false w.oracle [Step.run (dateCmd cfg.verbosity)] []
    with ⟨r1, es1⟩
  have hq := runSteps_stop h0 hk [Step.run (dateCmd cfg.verbosity)] []
    (by simp [execs])
  rw [hp1] at hq
  have hle1 : execs es1 ≤ 1 := by
    have := execs_runSteps_le false w.oracle [Step.run (dateCmd cfg.verbosity)] []
    rw [hp1] at this
    simpa [execs, countRuns] using this
  cases r1 with
  | error e1 =>
    simp at hq
    simp only [runPipeline, hdry, hp1] at hreach ⊢
    rw [execs_append_errEcho] at hreach ⊢
    rcases hq with hq | ⟨hq1, args, hq2⟩
    · omega
    · refine ⟨hq1, ?_, by simp, by intro h1; omega⟩
      rw [hq2]
      rfl
  | ok _ =>
    simp at hq
    rcases hval : validate cfg w with e | r
    · simp only [runPipeline, hdry, hp1, hval] at hreach ⊢
      rw [execs_append_errEcho] at hreach
      omega
    · rcases hp2 : runSteps false w.oracle (wsSteps cfg w r) es1 with ⟨r2, es2⟩
      have hq2' := runSteps_stop h0 hk (wsSteps cfg w r) es1 hq
      rw [hp2] at hq2'
      cases r2 with
      | error e2 =>
        simp at hq2'
        simp only [runPipeline, hdry, hp1, hval, hp2] at hreach ⊢
        rw [execs_append_errEcho] at hreach ⊢
        rcases hq2' with hle | ⟨heq, args, herr⟩
        · omega
        · refine ⟨heq, ?_, by simp, by simp⟩
          rw [herr]
          rfl
      | ok _ =>
        simp at hq2'
        simp only [runPipeline, hdry, hp1, hval, hp2] at hreach ⊢
        omega

/-- Witness for claim C1 on a concrete run whose fourth command
(`mincnlm`, index 3) exits with status 7. -/
theorem claim1_stage_failure_aborts_witness :
    (mkCfg (nm "scan001.nii.gz") false false false false 2).dry_run = false ∧
    (∀ i, i < 3 → (mkWorld goodFs [] (failAt 3 7)).oracle i = 0) ∧
    (mkWorld goodFs [] (failAt 3 7)).oracle 3 ≠ 0 ∧
    3 < execs (runPipeline (mkCfg (nm "scan001.nii.gz") false false false false 2)
      (mkWorld goodFs [] (failAt 3 7))).events ∧
    (execs (runPipeline (mkCfg (nm "scan001.nii.gz") false false false false 2)
        (mkWorld goodFs [] (failAt 3 7))).events = 3 + 1 ∧
      (runPipeline (mkCfg (nm "scan001.nii.gz") false false false false 2)
        (mkWorld goodFs [] (failAt 3 7))).exit_code
        = (mkWorld goodFs [] (failAt 3 7)).oracle 3 ∧
      ((runPipeline (mkCfg (nm "scan001.nii.gz") false false false false 2)
          (mkWorld goodFs [] (failAt 3 7))).wsCreated = true →
        (runPipeline (mkCfg (nm "scan001.nii.gz") false false false false 2)
          (mkWorld goodFs [] (failAt 3 7))).wsRemoved = true) ∧
      (1 ≤ 3 → (runPipeline (mkCfg (nm "scan001.nii.gz") false false false false 2)
        (mkWorld goodFs [] (failAt 3 7))).wsRemoved = true)) :=
  ⟨by decide, by decide, by decide, by decide,
   claim1_stage_failure_aborts
     (mkCfg (nm "scan001.nii.gz") false false false false 2)
     (mkWorld goodFs [] (failAt 3 7)) 3
     (by decide) (by decide) (by decide) (by decide)⟩

theorem validate_wet (cfg : Cfg) (w : World) :
    validate (wetCfg cfg) (zeroWorld w) = validate cfg w := rfl

theorem stepsRes_date (v : Nat) :
    stepsRes [Step.run (dateCmd v)] = Except.ok () := rfl

theorem guardedPlan_date (v : Nat) :
    guardedPlan [Step.run (dateCmd v)] = [[nm "date"]] := rfl

theorem wetTrace_date (v : Nat) :
    wetTrace [Step.run (dateCmd v)]
      = (if 0 < v then [Ev.runEcho [nm "date"]] else [])
          ++ [Ev.exec [nm "date"] none] := by
  simp [wetTrace, cmdArgs_dateCmd, dateCmd_verb, dateCmd_redirect]

/-- Claim C2 counterexample: a run whose input-scan validation fails
(the scan does not exist) still executes one external command — the
initial `date` of `timestamp()`, which runs before all path checks — so
the run does not fail "before any external command is executed". -/
theorem claim2_counterexample :
    validate (mkCfg (nm "scan001.nii.gz") false false false false 2)
        (mkWorld [templateP, templateMaskP, beastP] [] zOr)
      = Except.error ErrKind.niftiNotFound ∧
    (runPipeline (mkCfg (nm "scan001.nii.gz") false false false false 2)
      (mkWorld [templateP, templateMaskP, beastP] [] zOr)).exit_code = 1 ∧
    execs (runPipeline (mkCfg (nm "scan001.nii.gz") false false false false 2)
      (mkWorld [templateP, templateMaskP, beastP] [] zOr)).events = 1 := by
  decide

/-- Claim C2 (amended): either all path validations succeed — the
resolved scan, template, template mask and BEaST library exist, the scan
has a valid extension, and the share/template/beast-lib consistency
condition holds — or the run fails with that check's specific error
kind, with exit code 1, before the workspace is created and before any
external command other than the initial timestamp (`date`) is
executed. -/
theorem claim2_path_resolver (cfg : Cfg) (w : World) :
    (∀ r, validate cfg w = Except.ok r →
       w.pathExists r.fpath_nifti = true ∧
       (strEndsWith r.fpath_nifti.name EXT_NIFTI = true ∨
         strEndsWith r.fpath_nifti.name (EXT_NIFTI ++ EXT_GZIP) = true) ∧
       w.pathExists r.fpath_template = true ∧
       w.pathExists r.fpath_template_mask = true ∧
       w.pathExists r.dpath_beast_lib = true ∧
       (cfg.dpath_share = none →
         cfg.dpath_templates ≠ none ∧ cfg.dpath_beast_lib ≠ none)) ∧
    (∀ e, validate cfg w = Except.error e →
       (runPipeline cfg w).wsCreated = false ∧
       execs (runPipeline cfg w).events ≤ 1 ∧
       (∀ args rd, Ev.exec args rd ∈ (runPipeline cfg w).events →
         args = [nm "date"]) ∧
       ((cfg.dry_run = true ∨ w.oracle 0 = 0) →
         (runPipeline cfg w).exit_code = 1 ∧
         Ev.errEcho e ∈ (runPipeline cfg w).events)) := by
  constructor
  · intro r h
    rcases validate_ok_spec h with ⟨_, _, _, _, h5, h6, h7, h8, h9, h10⟩
    exact ⟨h5, h6, h7, h8, h9, h10⟩
  · intro e h
    rcases pipeline_valErr h with ⟨w1, w2, w3, _, w5⟩
    refine ⟨w1, w2, w3, ?_⟩
    intro hc
    rcases w5 hc with ⟨x1, x2⟩
    refine ⟨?_, x2⟩
    rw [x1]
    exact validate_errCode h

/-- Witness for the amended claim C2 at a concrete configuration whose
input scan is absent. -/
theorem claim2_path_resolver_witness :
    validate (mkCfg (nm "scan001.nii.gz") false false false false 2)
        (mkWorld [templateP, templateMaskP, beastP] [] zOr)
      = Except.error ErrKind.niftiNotFound ∧
    ((runPipeline (mkCfg (nm "scan001.nii.gz") false false false false 2)
        (mkWorld [templateP, templateMaskP, beastP] [] zOr)).wsCreated = false ∧
     execs (runPipeline (mkCfg (nm "scan001.nii.gz") false false false false 2)
        (mkWorld [templateP, templateMaskP, beastP] [] zOr)).events ≤ 1 ∧
     (∀ args rd, Ev.exec args rd
        ∈ (runPipeline (mkCfg (nm "scan001.nii.gz") false false false false 2)
            (mkWorld [templateP, templateMaskP, beastP] [] zOr)).events →
        args = [nm "date"]) ∧
     (((mkCfg (nm "scan001.nii.gz") false false false false 2).dry_run = true ∨
        (mkWorld [templateP, templateMaskP, beastP] [] zOr).oracle 0 = 0) →
       (runPipeline (mkCfg (nm "scan001.nii.gz") false false false false 2)
          (mkWorld [templateP, templateMaskP, beastP] [] zOr)).exit_code = 1 ∧
       Ev.errEcho ErrKind.niftiNotFound
         ∈ (runPipeline (mkCfg (nm "scan001.nii.gz") false false false false 2)
             (mkWorld [templateP, templateMaskP, beastP] [] zOr)).events)) :=
  ⟨by decide,
   (claim2_path_resolver (mkCfg (nm "scan001.nii.gz") false false false false 2)
     (mkWorld [templateP, templateMaskP, beastP] [] zOr)).2
     ErrKind.niftiNotFound (by decide)⟩

/-- Claim C9: with no explicit template directory, the template
directory is the shared data root joined with the name the static table
assigns to the template identifier, and an identifier outside the table
makes the run fail (with the `KeyError` reported through the generic
exception handler, exit code 1) before the workspace is created. -/
theorem claim9_template_lookup (cfg : Cfg) (w : World) (sh : Name)
    (hshare : cfg.dpath_share = some sh)
    (htmpl : cfg.dpath_templates = none) :
    (∀ d r, List.lookup cfg.templateId DNAME_TEMPLATE_MAP = some d →
       validate cfg w = Except.ok r →
       r.dpath_templates = joinDir (w.resolve sh) d) ∧
    (List.lookup cfg.templateId DNAME_TEMPLATE_MAP = none →
       validate cfg w = Except.error ErrKind.templateKeyError ∧
       ((cfg.dry_run = true ∨ w.oracle 0 = 0) →
         (runPipeline cfg w).exit_code = 1 ∧
         Ev.errEcho ErrKind.templateKeyError ∈ (runPipeline cfg w).events ∧
         (runPipeline cfg w).wsCreated = false)) := by
  constructor
  · intro d r hd hok
    unfold validate at hok
    rw [hshare, htmpl] at hok
    simp at hok
    rw [hd] at hok
    rcases validateChecks_ok hok with ⟨hr, _⟩
    rw [hr]
  · intro hnone
    have hverr : validate cfg w = Except.error ErrKind.templateKeyError := by
      unfold validate
      rw [hshare, htmpl]
      simp
      rw [hnone]
    refine ⟨hverr, ?_⟩
    intro hc
    rcases pipeline_valErr hverr with ⟨w1, _, _, _, w5⟩
    rcases w5 hc with ⟨x1, x2⟩
    exact ⟨by rw [x1]; rfl, x2, w1⟩

/-- Witness for claim C9 with the unrecognized identifier
`not_a_template`. -/
theorem claim9_template_lookup_witness :
    List.lookup (Cfg.templateId ⟨nm "scan001.nii.gz", nm "out",
        some (nm "share"), none, nm "not_a_template", none,
        nm "default.1mm.conf", false, false, false, 2, false⟩)
      DNAME_TEMPLATE_MAP = none ∧
    (validate ⟨nm "scan001.nii.gz", nm "out", some (nm "share"), none,
        nm "not_a_template", none, nm "default.1mm.conf",
        false, false, false, 2, false⟩ (mkWorld goodFs [] zOr)
      = Except.error ErrKind.templateKeyError ∧
     ((Cfg.dry_run ⟨nm "scan001.nii.gz", nm "out", some (nm "share"), none,
          nm "not_a_template", none, nm "default.1mm.conf",
          false, false, false, 2, false⟩ = true ∨
       (mkWorld goodFs [] zOr).oracle 0 = 0) →
       (runPipeline ⟨nm "scan001.nii.gz", nm "out", some (nm "share"), none,
          nm "not_a_template", none, nm "default.1mm.conf",
          false, false, false, 2, false⟩
          (mkWorld goodFs [] zOr)).exit_code = 1 ∧
       Ev.errEcho ErrKind.templateKeyError
         ∈ (runPipeline ⟨nm "scan001.nii.gz", nm "out", some (nm "share"),
             none, nm "not_a_template", none, nm "default.1mm.conf",
             false, false, false, 2, false⟩ (mkWorld goodFs [] zOr)).events ∧
       (runPipeline ⟨nm "scan001.nii.gz", nm "out", some (nm "share"), none,
          nm "not_a_template", none, nm "default.1mm.conf",
          false, false, false, 2, false⟩
          (mkWorld goodFs [] zOr)).wsCreated = false)) :=
  ⟨by decide,
   (claim9_template_lookup ⟨nm "scan001.nii.gz", nm "out", some (nm "share"),
      none, nm "not_a_template", none, nm "default.1mm.conf",
      false, false, false, 2, false⟩ (mkWorld goodFs [] zOr)
      (nm "share") rfl rfl).2 (by decide)⟩

/-- Claim C10: in dry-run mode the path validations still run against
the real filesystem — when the scan, template, template mask or BEaST
library is absent, the dry run reports the same validation error and
exits 1 exactly like the corresponding real run — while no external
command at all is executed. -/
theorem claim10_dry_run_validates (cfg : Cfg) (w : World) (e : ErrKind)
    (hdry : cfg.dry_run = true)
    (he : validate cfg w = Except.error e)
    (_hkind : e = ErrKind.niftiNotFound ∨ e = ErrKind.templateNotFound ∨
      e = ErrKind.templateMaskNotFound ∨ e = ErrKind.beastLibNotFound) :
    (runPipeline cfg w).exit_code = 1 ∧
    execs (runPipeline cfg w).events = 0 ∧
    Ev.errEcho e ∈ (runPipeline cfg w).events ∧
    (runPipeline (wetCfg cfg) (zeroWorld w)).exit_code = 1 ∧
    Ev.errEcho e ∈ (runPipeline (wetCfg cfg) (zeroWorld w)).events := by
  have he2 : validate (wetCfg cfg) (zeroWorld w) = Except.error e := by
    rw [validate_wet]
    exact he
  rcases pipeline_valErr he with ⟨_, _, _, h4, h5⟩
  rcases h5 (Or.inl hdry) with ⟨x1, x2⟩
  rcases pipeline_valErr he2 with ⟨_, _, _, _, h5'⟩
  rcases h5' (Or.inr rfl) with ⟨y1, y2⟩
  refine ⟨?_, h4 hdry, x2, ?_, y2⟩
  · rw [x1]
    exact validate_errCode he
  · rw [y1]
    exact validate_errCode he2

/-- Witness for claim C10: dry run over a filesystem missing the
template mask. -/
theorem claim10_dry_run_validates_witness :
    validate (mkCfg (nm "scan001.nii.gz") false false true false 2)
        (mkWorld [scanP, templateP, beastP] [] zOr)
      = Except.error ErrKind.templateMaskNotFound ∧
    ((runPipeline (mkCfg (nm "scan001.nii.gz") false false true false 2)
        (mkWorld [scanP, templateP, beastP] [] zOr)).exit_code = 1 ∧
     execs (runPipeline (mkCfg (nm "scan001.nii.gz") false false true false 2)
        (mkWorld [scanP, templateP, beastP] [] zOr)).events = 0 ∧
     Ev.errEcho ErrKind.templateMaskNotFound
       ∈ (runPipeline (mkCfg (nm "scan001.nii.gz") false false true false 2)
           (mkWorld [scanP, templateP, beastP] [] zOr)).events ∧
     (runPipeline (wetCfg (mkCfg (nm "scan001.nii.gz") false false true false 2))
        (zeroWorld (mkWorld [scanP, templateP, beastP] [] zOr))).exit_code = 1 ∧
     Ev.errEcho ErrKind.templateMaskNotFound
       ∈ (runPipeline
           (wetCfg (mkCfg (nm "scan001.nii.gz") false false true false 2))
           (zeroWorld (mkWorld [scanP, templateP, beastP] [] zOr))).events) :=
  ⟨by decide,
   claim10_dry_run_validates
     (mkCfg (nm "scan001.nii.gz") false false true false 2)
     (mkWorld [scanP, templateP, beastP] [] zOr)
     ErrKind.templateMaskNotFound (by decide) (by decide) (by decide)⟩

/-- Claim C3: with the dry-run flag set no external process is ever
executed, however many steps the pipeline has, and the `[RUN]` command
lines printed are exactly, in order, the argument lists of the commands
the corresponding real run (same configuration with dry-run off, every
command succeeding) would execute.  In dry-run mode `run_command`'s echo
condition `verbosity > 0 or dry_run` always holds, so one line is
printed per planned invocation at every verbosity setting. -/
theorem claim3_dry_run (cfg : Cfg) (w : World) (hdry : cfg.dry_run = true) :
    execs (runPipeline cfg w).events = 0 ∧
    runEchoes (runPipeline cfg w).events
      = execArgsOf (runPipeline (wetCfg cfg) (zeroWorld w)).events := by
  have hb : (wetCfg cfg).dry_run = false := rfl
  have hor : (zeroWorld w).oracle = fun _ => (0 : Nat) := rfl
  have hvv : (wetCfg cfg).verbosity = cfg.verbosity := rfl
  rcases hval : validate cfg w with e | r
  · have hval2 : validate (wetCfg cfg) (zeroWorld w) = Except.error e := by
      rw [validate_wet]; exact hval
    simp only [runPipeline, hdry, datePhase_dry, hval, hb, hor, hvv, hval2,
      @datePhase_wet_ok (fun _ => 0) cfg.verbosity rfl]
    constructor
    · simp [execs_append, execs]
    · by_cases hcv : 0 < cfg.verbosity <;>
        simp [hcv, runEchoes_append, runEchoes_cons_echo, runEchoes_cons_err,
          runEchoes_nil, execArgsOf_append, execArgsOf_cons_exec,
          execArgsOf_cons_echo, execArgsOf_cons_err, execArgsOf_nil]
  · have hval2 : validate (wetCfg cfg) (zeroWorld w) = Except.ok r := by
      rw [validate_wet]; exact hval
    have hws : wsSteps (wetCfg cfg) (zeroWorld w) r = wsSteps cfg w r := rfl
    simp only [runPipeline, hdry, datePhase_dry, hval, hb, hor, hvv, hval2, hws,
      @datePhase_wet_ok (fun _ => 0) cfg.verbosity rfl, runSteps_dry,
      runSteps_zero]
    rcases hres : stepsRes (wsSteps cfg w r) with e2 | u <;>
      simp only [hres] <;> constructor
    · simp [execs_append, execs, execs_map_runEcho, stepsRes_date,
        guardedPlan_date]
    · by_cases hcv : 0 < cfg.verbosity <;>
        simp [hcv, runEchoes_append, runEchoes_cons_echo, runEchoes_cons_err,
          runEchoes_nil, runEchoes_map_runEcho, execArgsOf_append,
          execArgsOf_cons_exec, execArgsOf_cons_echo, execArgsOf_cons_err,
          execArgsOf_nil, execArgsOf_wetTrace, stepsRes_date, guardedPlan_date,
          wetTrace_date]
    · simp [execs_append, execs, execs_map_runEcho, stepsRes_date,
        guardedPlan_date]
    · by_cases hcv : 0 < cfg.verbosity <;>
        simp [hcv, runEchoes_append, runEchoes_cons_echo, runEchoes_cons_err,
          runEchoes_nil, runEchoes_map_runEcho, execArgsOf_append,
          execArgsOf_cons_exec, execArgsOf_cons_echo, execArgsOf_cons_err,
          execArgsOf_nil, execArgsOf_wetTrace, stepsRes_date, guardedPlan_date,
          wetTrace_date]

/-- Witness for claim C3 on a concrete dry run (compared with its real
counterpart). -/
theorem claim3_dry_run_witness :
    (mkCfg (nm "scan001.nii.gz") false false true false 2).dry_run = true ∧
    (execs (runPipeline (mkCfg (nm "scan001.nii.gz") false false true false 2)
        (mkWorld goodFs [] zOr)).events = 0 ∧
     runEchoes (runPipeline (mkCfg (nm "scan001.nii.gz") false false true false 2)
        (mkWorld goodFs [] zOr)).events
       = execArgsOf (runPipeline
           (wetCfg (mkCfg (nm "scan001.nii.gz") false false true false 2))
           (zeroWorld (mkWorld goodFs [] zOr))).events) :=
  ⟨by decide,
   claim3_dry_run (mkCfg (nm "scan001.nii.gz") false false true false 2)
     (mkWorld goodFs [] zOr) (by decide)⟩

theorem cmdArgs_nil (rd : Option PyPath) (vb : Nat) :
    cmdArgs ⟨[], rd, vb⟩ = [] := rfl

theorem cmdArgs_cons_s {v : Name} (hv : v ≠ []) (rest : List Tok)
    (rd : Option PyPath) (vb : Nat) :
    cmdArgs ⟨Tok.s v :: rest, rd, vb⟩ = v :: cmdArgs ⟨rest, rd, vb⟩ := by
  simp [cmdArgs, hv, Tok.str]

theorem cmdArgs_cons_p (p : PyPath) (rest : List Tok)
    (rd : Option PyPath) (vb : Nat) :
    cmdArgs ⟨Tok.p p :: rest, rd, vb⟩ = pathStr p :: cmdArgs ⟨rest, rd, vb⟩ := by
  simp [cmdArgs, Tok.str]

theorem cmdArgs_head_s {v : Name} (hv : v ≠ []) (rest : List Tok)
    (rd : Option PyPath) (vb : Nat) :
    (cmdArgs ⟨Tok.s v :: rest, rd, vb⟩).head? = some v := by
  rw [cmdArgs_cons_s hv]
  rfl

theorem reachedRuns_wsSteps_guardFalse {cfg : Cfg} {w : World} {r : Resolved}
    (hg : outGuardOk cfg w (mkArts cfg r w.tmpDir) = false) :
    reachedRuns (wsSteps cfg w r)
      = [matCmd r (mkArts cfg r w.tmpDir)
          (if cfg.quiet = true then 0 else cfg.verbosity)] := by
  simp [wsSteps, reachedRuns, hg]

theorem stepsRes_map_run_append {α : Type} (l : List α) (f : α → Cmd)
    (rest : List Step) :
    stepsRes (l.map (fun x => Step.run (f x)) ++ rest) = stepsRes rest := by
  induction l with
  | nil => simp
  | cons a l2 ih => simpa [stepsRes] using ih

theorem stepsRes_wsSteps_guardFalse {cfg : Cfg} {w : World} {r : Resolved}
    (hg : outGuardOk cfg w (mkArts cfg r w.tmpDir) = false) :
    stepsRes (wsSteps cfg w r) = Except.error ErrKind.outputConflict := by
  simp [wsSteps, stepsRes, hg]

theorem stepsRes_wsSteps_guardTrue {cfg : Cfg} {w : World} {r : Resolved}
    (hg : outGuardOk cfg w (mkArts cfg r w.tmpDir) = true) :
    stepsRes (wsSteps cfg w r) = Except.ok () := by
  simp [wsSteps, stepsRes, hg, stepsRes_map_run_append]

theorem pipeline_dry_ok {cfg : Cfg} {w : World} {r : Resolved}
    (hdry : cfg.dry_run = true) (hv : validate cfg w = Except.ok r) :
    runPipeline cfg w =
      match stepsRes (wsSteps cfg w r) with
      | Except.error e =>
        ⟨Ev.runEcho [nm "date"]
           :: ((guardedPlan (wsSteps cfg w r)).map Ev.runEcho
                ++ [Ev.errEcho e]), errCode e, true, true⟩
      | Except.ok _ =>
        ⟨Ev.runEcho [nm "date"]
           :: (guardedPlan (wsSteps cfg w r)).map Ev.runEcho, 0, true, true⟩ := by
  simp only [runPipeline, hdry, datePhase_dry, hv, runSteps_dry]
  rcases hres : stepsRes (wsSteps cfg w r) with e | u <;>
    simp [hres, stepsRes_date, guardedPlan_date]

theorem pipeline_wet_ok {cfg : Cfg} {w : World} {r : Resolved}
    (hdry : cfg.dry_run = false) (ho : ∀ i, w.oracle i = 0)
    (hv : validate cfg w = Except.ok r) :
    runPipeline cfg w =
      match stepsRes (wsSteps cfg w r) with
      | Except.error e =>
        ⟨dateEvs cfg.verbosity
           ++ (wetTrace (wsSteps cfg w r) ++ [Ev.errEcho e]),
         errCode e, true, true⟩
      | Except.ok _ =>
        ⟨dateEvs cfg.verbosity ++ wetTrace (wsSteps cfg w r), 0, true, true⟩ := by
  have hfo : w.oracle = fun _ => (0 : Nat) := funext ho
  simp only [runPipeline, hdry, hfo,
    @datePhase_wet_ok (fun _ => 0) cfg.verbosity rfl, hv, runSteps_zero]
  rcases hres : stepsRes (wsSteps cfg w r) with e | u <;>
    simp [hres, dateEvs, stepsRes_date, wetTrace_date]

/-- Every executed command of a run is either the initial `date` or one
of the reachable workspace commands of the validated configuration. -/
theorem exec_mem_pipeline {cfg : Cfg} {w : World} {args : List Name}
    {rd : Option PyPath}
    (h : Ev.exec args rd ∈ (runPipeline cfg w).events) :
    args = [nm "date"] ∨
      ∃ r c, validate cfg w = Except.ok r ∧
        c ∈ reachedRuns (wsSteps cfg w r) ∧ args = cmdArgs c ∧
        rd = c.redirect := by
  rcases hp1 : runSteps cfg.dry_run w.oracle
      [Step.run (dateCmd cfg.verbosity)] [] with ⟨r1, es1⟩
  have hes1 : ∀ {args' : List Name} {rd' : Option PyPath},
      Ev.exec args' rd' ∈ es1 → args' = [nm "date"] := by
    intro args' rd' hm
    have hm2 := exec_mem_runSteps (by rw [hp1]; exact hm)
    rcases hm2 with h' | ⟨c, hc, ha, _⟩
    · simp at h'
    · simp [reachedRuns] at hc
      rw [hc] at ha
      rw [ha, cmdArgs_dateCmd]
  cases r1 with
  | error e1 =>
    simp only [runPipeline, hp1] at h
    rcases List.mem_append.mp h with h | h
    · exact Or.inl (hes1 h)
    · simp at h
  | ok u =>
    rcases hval : validate cfg w with e | r
    · simp only [runPipeline, hp1, hval] at h
      rcases List.mem_append.mp h with h | h
      · exact Or.inl (hes1 h)
      · simp at h
    · rcases hp2 : runSteps cfg.dry_run w.oracle (wsSteps cfg w r) es1
        with ⟨r2, es2⟩
      have hm2 : Ev.exec args rd ∈ es2 → args = [nm "date"] ∨
          ∃ c, c ∈ reachedRuns (wsSteps cfg w r) ∧ args = cmdArgs c ∧
            rd = c.redirect := by
        intro hm
        have := exec_mem_runSteps (by rw [hp2]; exact hm)
        rcases this with h' | ⟨c, hc, ha, hr⟩
        · exact Or.inl (hes1 h')
        · exact Or.inr ⟨c, hc, ha, hr⟩
      cases r2 with
      | error e2 =>
        simp only [runPipeline, hp1, hval, hp2] at h
        rcases List.mem_append.mp h with h | h
        · rcases hm2 h with h' | ⟨c, hc, ha, hr⟩
          · exact Or.inl h'
          · exact Or.inr ⟨r, c, rfl, hc, ha, hr⟩
        · simp at h
      | ok u2 =>
        simp only [runPipeline, hp1, hval, hp2] at h
        rcases hm2 h with h' | ⟨c, hc, ha, hr⟩
        · exact Or.inl h'
        · exact Or.inr ⟨r, c, rfl, hc, ha, hr⟩

/-- Every `[RUN]` echo of a run is the initial `date` line or one of
the reachable workspace commands of the validated configuration. -/
theorem echo_mem_pipeline {cfg : Cfg} {w : World} {args : List Name}
    (h : Ev.runEcho args ∈ (runPipeline cfg w).events) :
    args = [nm "date"] ∨
      ∃ r c, validate cfg w = Except.ok r ∧
        c ∈ reachedRuns (wsSteps cfg w r) ∧ args = cmdArgs c := by
  rcases hp1 : runSteps cfg.dry_run w.oracle
      [Step.run (dateCmd cfg.verbosity)] [] with ⟨r1, es1⟩
  have hes1 : ∀ {args' : List Name},
      Ev.runEcho args' ∈ es1 → args' = [nm "date"] := by
    intro args' hm
    have hm2 := echo_mem_runSteps (by rw [hp1]; exact hm)
    rcases hm2 with h' | ⟨c, hc, ha⟩
    · simp at h'
    · simp [reachedRuns] at hc
      rw [hc] at ha
      rw [ha, cmdArgs_dateCmd]
  cases r1 with
  | error e1 =>
    simp only [runPipeline, hp1] at h
    rcases List.mem_append.mp h with h | h
    · exact Or.inl (hes1 h)
    · simp at h
  | ok u =>
    rcases hval : validate cfg w with e | r
    · simp only [runPipeline, hp1, hval] at h
      rcases List.mem_append.mp h with h | h
      · exact Or.inl (hes1 h)
      · simp at h
    · rcases hp2 : runSteps cfg.dry_run w.oracle (wsSteps cfg w r) es1
        with ⟨r2, es2⟩
      have hm2 : Ev.runEcho args ∈ es2 → args = [nm "date"] ∨
          ∃ c, c ∈ reachedRuns (wsSteps cfg w r) ∧ args = cmdArgs c := by
        intro hm
        have := echo_mem_runSteps (by rw [hp2]; exact hm)
        rcases this with h' | ⟨c, hc, ha⟩
        · exact Or.inl (hes1 h')
        · exact Or.inr ⟨c, hc, ha⟩
      cases r2 with
      | error e2 =>
        simp only [runPipeline, hp1, hval, hp2] at h
        rcases List.mem_append.mp h with h | h
        · rcases hm2 h with h' | ⟨c, hc, ha⟩
          · exact Or.inl h'
          · exact Or.inr ⟨r, c, rfl, hc, ha⟩
        · simp at h
      | ok u2 =>
        simp only [runPipeline, hp1, hval, hp2] at h
        rcases hm2 h with h' | ⟨c, hc, ha⟩
        · exact Or.inl h'
        · exact Or.inr ⟨r, c, rfl, hc, ha⟩

theorem matCmd_head (r : Resolved) (a : Arts) (v : Nat) :
    (cmdArgs (matCmd r a v)).head? = some (nm "zcat") ∨
    (cmdArgs (matCmd r a v)).head? = some (nm "ln") := by
  unfold matCmd
  split_ifs
  · exact Or.inl (cmdArgs_head_s (by decide) _ _ _)
  · exact Or.inr (cmdArgs_head_s (by decide) _ _ _)

theorem reachedRuns_subset :
    ∀ {steps : List Step} {c : Cmd},
      c ∈ reachedRuns steps → Step.run c ∈ steps := by
  intro steps
  induction steps with
  | nil => intro c h; simp [reachedRuns] at h
  | cons st rest ih =>
    intro c h
    cases st with
    | run c2 =>
      rcases List.mem_cons.mp (by simpa [reachedRuns] using h) with h2 | h2
      · rw [h2]; exact List.mem_cons_self _ _
      · exact List.mem_cons_of_mem _ (ih h2)
    | guard g e =>
      cases g with
      | true => exact List.mem_cons_of_mem _ (ih (by simpa [reachedRuns] using h))
      | false => simp [reachedRuns] at h

/-- Every command of the workspace step list whose first argument is
`cp` carries the `-vfp` flag (verbose, force overwrite, preserve). -/
theorem wsSteps_cp_vfp {cfg : Cfg} {w : World} {r : Resolved} {c : Cmd}
    (hc : Step.run c ∈ wsSteps cfg w r)
    (hhead : (cmdArgs c).head? = some (nm "cp")) : nm "-vfp" ∈ cmdArgs c := by
  simp [wsSteps] at hc
  rcases hc with hc|hc|hc|hc|hc|hc|hc|hc|hc|hc|hc|⟨src, hsrc, hc⟩|hc|hc <;>
    subst hc <;>
    first
      | (rw [cmdArgs_head_s (by decide)] at hhead
         exact absurd hhead (by decide))
      | (rcases matCmd_head r (mkArts cfg r w.tmpDir)
            (if cfg.quiet = true then 0 else cfg.verbosity) with hh | hh <;>
          rw [hh] at hhead <;> exact absurd hhead (by decide))
      | (rw [cmdArgs_dateCmd] at hhead
         exact absurd hhead (by decide))
      | (rw [cmdArgs_cons_s (by decide), cmdArgs_cons_s (by decide),
             cmdArgs_cons_p, cmdArgs_cons_p, cmdArgs_nil]
         simp)

/-- Claim C4: with a pre-existing non-empty output subdirectory and the
overwrite flag unset, the run aborts with the output-conflict error
(exit code 1) and no `cp` command is ever executed; with the overwrite
flag set the run proceeds to completion and every executed `cp` carries
the force-overwriting `-vfp` flag. -/
theorem claim4_overwrite_policy (cfg : Cfg) (w : World) (r : Resolved)
    (hv : validate cfg w = Except.ok r)
    (hok : cfg.dry_run = true ∨ ∀ i, w.oracle i = 0) :
    ((w.pathExists (mkArts cfg r w.tmpDir).out_sub = true ∧
      w.dirNonEmpty (mkArts cfg r w.tmpDir).out_sub = true ∧
      cfg.overwrite = false) →
      (runPipeline cfg w).exit_code = 1 ∧
      Ev.errEcho ErrKind.outputConflict ∈ (runPipeline cfg w).events ∧
      (∀ args rd, Ev.exec args rd ∈ (runPipeline cfg w).events →
        args.head? ≠ some (nm "cp"))) ∧
    (cfg.overwrite = true →
      (runPipeline cfg w).exit_code = 0 ∧
      (∀ args rd, Ev.exec args rd ∈ (runPipeline cfg w).events →
        args.head? = some (nm "cp") → nm "-vfp" ∈ args)) := by
  constructor
  · rintro ⟨hpe, hne, hov⟩
    have hg : outGuardOk cfg w (mkArts cfg r w.tmpDir) = false := by
      simp [outGuardOk, hpe, hne, hov]
    have hres := stepsRes_wsSteps_guardFalse hg
    have hnocp : ∀ args rd, Ev.exec args rd ∈ (runPipeline cfg w).events →
        args.head? ≠ some (nm "cp") := by
      intro args rd hmem
      rcases exec_mem_pipeline hmem with hdate | ⟨r2, c, hval2, hc, ha, _⟩
      · rw [hdate]; decide
      · rw [hv] at hval2
        have hr2 : r2 = r := by
          have := hval2
          simp at this
          exact this.symm
        rw [hr2] at hc
        rw [reachedRuns_wsSteps_guardFalse hg] at hc
        simp at hc
        rw [ha, hc]
        rcases matCmd_head r (mkArts cfg r w.tmpDir)
            (if cfg.quiet = true then 0 else cfg.verbosity) with hh | hh <;>
          rw [hh] <;> decide
    cases hd : cfg.dry_run with
    | true =>
      rw [pipeline_dry_ok hd hv, hres] at hnocp ⊢
      exact ⟨rfl, by simp, hnocp⟩
    | false =>
      have ho : ∀ i, w.oracle i = 0 := by
        rcases hok with h | h
        · rw [hd] at h; exact absurd h (by simp)
        · exact h
      rw [pipeline_wet_ok hd ho hv, hres] at hnocp ⊢
      exact ⟨rfl, by simp, hnocp⟩
  · intro hov
    have hg : outGuardOk cfg w (mkArts cfg r w.tmpDir) = true := by
      simp [outGuardOk, hov]
    have hres := stepsRes_wsSteps_guardTrue hg
    have hvfp : ∀ args rd, Ev.exec args rd ∈ (runPipeline cfg w).events →
        args.head? = some (nm "cp") → nm "-vfp" ∈ args := by
      intro args rd hmem hhead
      rcases exec_mem_pipeline hmem with hdate | ⟨r2, c, hval2, hc, ha, _⟩
      · rw [hdate] at hhead; exact absurd hhead (by decide)
      · rw [hv] at hval2
        have hr2 : r2 = r := by
          have := hval2
          simp at this
          exact this.symm
        rw [hr2] at hc
        rw [ha] at hhead ⊢
        exact wsSteps_cp_vfp (reachedRuns_subset hc) hhead
    cases hd : cfg.dry_run with
    | true =>
      rw [pipeline_dry_ok hd hv, hres] at hvfp ⊢
      exact ⟨rfl, hvfp⟩
    | false =>
      have ho : ∀ i, w.oracle i = 0 := by
        rcases hok with h | h
        · rw [hd] at h; exact absurd h (by simp)
        · exact h
      rw [pipeline_wet_ok hd ho hv, hres] at hvfp ⊢
      exact ⟨rfl, hvfp⟩

/-- Witness for claim C4: concrete run against a pre-existing non-empty
output subdirectory without overwrite permission. -/
theorem claim4_overwrite_policy_witness :
    validate (mkCfg (nm "scan001.nii.gz") false false false false 2)
        (mkWorld (goodFs ++ [outSubP]) [outSubP] zOr) = Except.ok resolvedGz ∧
    ((mkWorld (goodFs ++ [outSubP]) [outSubP] zOr).pathExists
       (mkArts (mkCfg (nm "scan001.nii.gz") false false false false 2)
         resolvedGz (mkWorld (goodFs ++ [outSubP]) [outSubP] zOr).tmpDir).out_sub
       = true ∧
     (mkWorld (goodFs ++ [outSubP]) [outSubP] zOr).dirNonEmpty
       (mkArts (mkCfg (nm "scan001.nii.gz") false false false false 2)
         resolvedGz (mkWorld (goodFs ++ [outSubP]) [outSubP] zOr).tmpDir).out_sub
       = true) ∧
    ((runPipeline (mkCfg (nm "scan001.nii.gz") false false false false 2)
        (mkWorld (goodFs ++ [outSubP]) [outSubP] zOr)).exit_code = 1 ∧
     Ev.errEcho ErrKind.outputConflict
       ∈ (runPipeline (mkCfg (nm "scan001.nii.gz") false false false false 2)
           (mkWorld (goodFs ++ [outSubP]) [outSubP] zOr)).events ∧
     (∀ args rd, Ev.exec args rd
        ∈ (runPipeline (mkCfg (nm "scan001.nii.gz") false false false false 2)
            (mkWorld (goodFs ++ [outSubP]) [outSubP] zOr)).events →
        args.head? ≠ some (nm "cp"))) :=
  ⟨by decide, ⟨by decide, by decide⟩,
   (claim4_overwrite_policy
     (mkCfg (nm "scan001.nii.gz") false false false false 2)
     (mkWorld (goodFs ++ [outSubP]) [outSubP] zOr) resolvedGz
     (by decide) (Or.inr (fun _ => rfl))).1 ⟨by decide, by decide, by decide⟩⟩

/-- Claim C6 counterexample: with a pre-existing but empty output
subdirectory and overwrite not permitted, the run still continues past
output-directory setup (the `mkdir` raises `FileExistsError`, the
`iterdir` check finds the directory empty, and the pipeline proceeds to
completion), refuting "a run never continues with a pre-existing output
subdirectory when overwrite is not permitted". -/
theorem claim6_counterexample :
    (mkCfg (nm "scan001.nii.gz") false false false false 2).overwrite = false ∧
    (mkWorld (goodFs ++ [outSubP]) [] zOr).pathExists
      (mkArts (mkCfg (nm "scan001.nii.gz") false false false false 2)
        resolvedGz (mkWorld (goodFs ++ [outSubP]) [] zOr).tmpDir).out_sub
      = true ∧
    validate (mkCfg (nm "scan001.nii.gz") false false false false 2)
        (mkWorld (goodFs ++ [outSubP]) [] zOr) = Except.ok resolvedGz ∧
    (runPipeline (mkCfg (nm "scan001.nii.gz") false false false false 2)
      (mkWorld (goodFs ++ [outSubP]) [] zOr)).exit_code = 0 ∧
    Ev.exec [nm "nii2mnc", nm "tmp/t0/scan001.nii", nm "tmp/t0/scan001.mnc"] none
      ∈ (runPipeline (mkCfg (nm "scan001.nii.gz") false false false false 2)
          (mkWorld (goodFs ++ [outSubP]) [] zOr)).events := by
  decide

/-- Claim C6 (amended): whenever the pipeline proceeds past
output-directory setup — the first post-setup stage command `nii2mnc`
is echoed or executed — the output subdirectory was newly created
(it did not pre-exist), or overwrite was explicitly permitted, or the
pre-existing directory was empty. -/
theorem claim6_output_dir_invariant (cfg : Cfg) (w : World) (r : Resolved)
    (hv : validate cfg w = Except.ok r)
    (hpast :
      (∃ args rd, Ev.exec args rd ∈ (runPipeline cfg w).events ∧
        args.head? = some (nm "nii2mnc")) ∨
      (∃ args, Ev.runEcho args ∈ (runPipeline cfg w).events ∧
        args.head? = some (nm "nii2mnc"))) :
    w.pathExists (mkArts cfg r w.tmpDir).out_sub = false ∨
    cfg.overwrite = true ∨
    w.dirNonEmpty (mkArts cfg r w.tmpDir).out_sub = false := by
  by_cases hpe : w.pathExists (mkArts cfg r w.tmpDir).out_sub = false
  · exact Or.inl hpe
  by_cases hov : cfg.overwrite = true
  · exact Or.inr (Or.inl hov)
  by_cases hne : w.dirNonEmpty (mkArts cfg r w.tmpDir).out_sub = false
  · exact Or.inr (Or.inr hne)
  exfalso
  simp at hpe hov hne
  have hg : outGuardOk cfg w (mkArts cfg r w.tmpDir) = false := by
    simp [outGuardOk, hpe, hov, hne]
  have hmat : ∀ {args : List Name}, args = cmdArgs (matCmd r
      (mkArts cfg r w.tmpDir)
      (if cfg.quiet = true then 0 else cfg.verbosity)) →
      args.head? = some (nm "nii2mnc") → False := by
    intro args ha hhead
    rw [ha] at hhead
    rcases matCmd_head r (mkArts cfg r w.tmpDir)
        (if cfg.quiet = true then 0 else cfg.verbosity) with hh | hh <;>
      rw [hh] at hhead <;> exact absurd hhead (by decide)
  rcases hpast with ⟨args, rd, hmem, hhead⟩ | ⟨args, hmem, hhead⟩
  · rcases exec_mem_pipeline hmem with hdate | ⟨r2, c, hval2, hc, ha, _⟩
    · rw [hdate] at hhead; exact absurd hhead (by decide)
    · rw [hv] at hval2
      have hr2 : r2 = r := by
        have := hval2
        simp at this
        exact this.symm
      rw [hr2] at hc
      rw [reachedRuns_wsSteps_guardFalse hg] at hc
      simp at hc
      exact hmat (by rw [ha, hc]) hhead
  · rcases echo_mem_pipeline hmem with hdate | ⟨r2, c, hval2, hc, ha⟩
    · rw [hdate] at hhead; exact absurd hhead (by decide)
    · rw [hv] at hval2
      have hr2 : r2 = r := by
        have := hval2
        simp at this
        exact this.symm
      rw [hr2] at hc
      rw [reachedRuns_wsSteps_guardFalse hg] at hc
      simp at hc
      exact hmat (by rw [ha, hc]) hhead

/-- Witness for the amended claim C6: a concrete run that proceeds past
setup (its `nii2mnc` command is executed) and whose output subdirectory
did not pre-exist. -/
theorem claim6_output_dir_invariant_witness :
    validate (mkCfg (nm "scan001.nii.gz") false false false false 2)
        (mkWorld goodFs [] zOr) = Except.ok resolvedGz ∧
    Ev.exec [nm "nii2mnc", nm "tmp/t0/scan001.nii", nm "tmp/t0/scan001.mnc"] none
      ∈ (runPipeline (mkCfg (nm "scan001.nii.gz") false false false false 2)
          (mkWorld goodFs [] zOr)).events ∧
    ((mkWorld goodFs [] zOr).pathExists
        (mkArts (mkCfg (nm "scan001.nii.gz") false false false false 2)
          resolvedGz (mkWorld goodFs [] zOr).tmpDir).out_sub = false ∨
      (mkCfg (nm "scan001.nii.gz") false false false false 2).overwrite = true ∨
      (mkWorld goodFs [] zOr).dirNonEmpty
        (mkArts (mkCfg (nm "scan001.nii.gz") false false false false 2)
          resolvedGz (mkWorld goodFs [] zOr).tmpDir).out_sub = false) :=
  ⟨by decide, by decide,
   claim6_output_dir_invariant
     (mkCfg (nm "scan001.nii.gz") false false false false 2)
     (mkWorld goodFs [] zOr) resolvedGz (by decide)
     (Or.inl ⟨[nm "nii2mnc", nm "tmp/t0/scan001.nii", nm "tmp/t0/scan001.mnc"],
       none, by decide, by decide⟩)⟩

theorem endsWith_gz_suffix {n : Name}
    (h : strEndsWith n (EXT_NIFTI ++ EXT_GZIP) = true) :
    pySuffix n = EXT_GZIP := by
  have hs : (EXT_NIFTI ++ EXT_GZIP) <:+ n := by
    simpa [strEndsWith] using h
  obtain ⟨b, hb⟩ := hs
  have hgz : EXT_GZIP = '.' :: nm "gz" := rfl
  have hdec : n = (b ++ EXT_NIFTI) ++ '.' :: nm "gz" := by
    rw [← hb, hgz, List.append_assoc]
  rw [hdec]
  rw [pySuffix_append (by simp [EXT_NIFTI, nm]) (by decide) (by decide)]
  rfl

theorem suffix_endsWith {n sfx : Name} (h : pySuffix n = sfx) :
    strEndsWith n sfx = true := by
  have hn := pyStem_append_pySuffix n
  rw [h] at hn
  simp [strEndsWith]
  exact ⟨pyStem n, hn⟩

theorem ends_nii_gz_clash {n : Name} (h1 : strEndsWith n EXT_NIFTI = true)
    (h2 : strEndsWith n EXT_GZIP = true) : False := by
  have hs1 : EXT_NIFTI <:+ n := by simpa [strEndsWith] using h1
  have hs2 : EXT_GZIP <:+ n := by simpa [strEndsWith] using h2
  obtain ⟨a, ha⟩ := hs1
  obtain ⟨b, hb⟩ := hs2
  have hha : n.reverse.head? = some 'i' := by
    rw [← ha, List.reverse_append]; rfl
  have hhb : n.reverse.head? = some 'z' := by
    rw [← hb, List.reverse_append]; rfl
  rw [hha] at hhb
  simp at hhb

theorem valid_gz_suffix {n : Name}
    (hval : strEndsWith n EXT_NIFTI = true ∨
      strEndsWith n (EXT_NIFTI ++ EXT_GZIP) = true)
    (hgz : strEndsWith n EXT_GZIP = true) : pySuffix n = EXT_GZIP := by
  rcases hval with h | h
  · exact (ends_nii_gz_clash h hgz).elim
  · exact endsWith_gz_suffix h

/-- No command of the workspace step list of an uncompressed input has
`zcat` as its executable. -/
theorem wsSteps_no_zcat {cfg : Cfg} {w : World} {r : Resolved} {c : Cmd}
    (hngz : ¬pySuffix r.fpath_nifti.name = EXT_GZIP)
    (hc : Step.run c ∈ wsSteps cfg w r) :
    (cmdArgs c).head? ≠ some (nm "zcat") := by
  simp [wsSteps] at hc
  rcases hc with hc|hc|hc|hc|hc|hc|hc|hc|hc|hc|hc|⟨src, hsrc, hc⟩|hc|hc <;>
    subst hc <;> intro hhead <;>
    first
      | (rw [cmdArgs_head_s (by decide)] at hhead
         exact absurd hhead (by decide))
      | (rw [cmdArgs_dateCmd] at hhead
         exact absurd hhead (by decide))
      | (unfold matCmd at hhead
         rw [if_neg hngz, cmdArgs_head_s (by decide)] at hhead
         exact absurd hhead (by decide))

/-- Claim C7: for an input ending in the gzip extension, the
materialize stage is a `zcat` command whose redirected standard output
is the workspace artifact, whose name is the input name with the gzip
suffix dropped; for an uncompressed input the stage is a symbolic link
(`ln -s`) into the workspace preserving the full name, and no `zcat`
command is executed anywhere in the run. -/
theorem claim7_materialize (cfg : Cfg) (w : World) (r : Resolved)
    (hv : validate cfg w = Except.ok r) :
    (strEndsWith r.fpath_nifti.name EXT_GZIP = true →
      pySuffix r.fpath_nifti.name = EXT_GZIP ∧
      (wsSteps cfg w r).head? = some (Step.run
        ⟨[Tok.s (nm "zcat"), Tok.p r.fpath_nifti],
         some (mkArts cfg r w.tmpDir).raw_nii,
         if cfg.quiet = true then 0 else cfg.verbosity⟩) ∧
      (mkArts cfg r w.tmpDir).raw_nii.name ++ EXT_GZIP = r.fpath_nifti.name ∧
      (mkArts cfg r w.tmpDir).raw_nii.dirs = w.tmpDir.dirs ++ [w.tmpDir.name]) ∧
    (strEndsWith r.fpath_nifti.name EXT_GZIP = false →
      (wsSteps cfg w r).head? = some (Step.run
        ⟨[Tok.s (nm "ln"), Tok.s (nm "-s"), Tok.p r.fpath_nifti,
          Tok.p (mkArts cfg r w.tmpDir).raw_nii], none,
         if cfg.quiet = true then 0 else cfg.verbosity⟩) ∧
      (mkArts cfg r w.tmpDir).raw_nii.name = r.fpath_nifti.name ∧
      (mkArts cfg r w.tmpDir).raw_nii.dirs = w.tmpDir.dirs ++ [w.tmpDir.name] ∧
      (∀ args rd, Ev.exec args rd ∈ (runPipeline cfg w).events →
        args.head? ≠ some (nm "zcat"))) := by
  have hvalid := (validate_ok_spec hv).2.2.2.2.2.1
  constructor
  · intro hgz
    have hsfx := valid_gz_suffix hvalid hgz
    refine ⟨hsfx, ?_, ?_, ?_⟩
    · simp [wsSteps, matCmd, hsfx]
    · simp [mkArts, hsfx, joinDir]
      rw [← hsfx]
      exact pyStem_append_pySuffix _
    · simp [mkArts, hsfx, joinDir]
  · intro hngz
    have hsfx : ¬pySuffix r.fpath_nifti.name = EXT_GZIP := by
      intro h
      rw [suffix_endsWith h] at hngz
      simp at hngz
    refine ⟨?_, ?_, ?_, ?_⟩
    · simp [wsSteps, matCmd, hsfx]
    · simp [mkArts, hsfx, joinDir]
    · simp [mkArts, hsfx, joinDir]
    · intro args rd hmem
      rcases exec_mem_pipeline hmem with hdate | ⟨r2, c, hval2, hc, ha, _⟩
      · rw [hdate]; decide
      · rw [hv] at hval2
        have hr2 : r2 = r := by
          have := hval2
          simp at this
          exact this.symm
        rw [hr2] at hc
        rw [ha]
        exact wsSteps_no_zcat hsfx (reachedRuns_subset hc)

/-- Witness for claim C7: the gzipped scenario on a concrete run. -/
theorem claim7_materialize_witness :
    validate (mkCfg (nm "scan001.nii.gz") false false false false 2)
        (mkWorld goodFs [] zOr) = Except.ok resolvedGz ∧
    strEndsWith resolvedGz.fpath_nifti.name EXT_GZIP = true ∧
    (pySuffix resolvedGz.fpath_nifti.name = EXT_GZIP ∧
     (wsSteps (mkCfg (nm "scan001.nii.gz") false false false false 2)
        (mkWorld goodFs [] zOr) resolvedGz).head? = some (Step.run
        ⟨[Tok.s (nm "zcat"), Tok.p resolvedGz.fpath_nifti],
         some (mkArts (mkCfg (nm "scan001.nii.gz") false false false false 2)
           resolvedGz (mkWorld goodFs [] zOr).tmpDir).raw_nii,
         if (mkCfg (nm "scan001.nii.gz") false false false false 2).quiet = true
         then 0
         else (mkCfg (nm "scan001.nii.gz") false false false false 2).verbosity⟩) ∧
     (mkArts (mkCfg (nm "scan001.nii.gz") false false false false 2)
        resolvedGz (mkWorld goodFs [] zOr).tmpDir).raw_nii.name ++ EXT_GZIP
       = resolvedGz.fpath_nifti.name ∧
     (mkArts (mkCfg (nm "scan001.nii.gz") false false false false 2)
        resolvedGz (mkWorld goodFs [] zOr).tmpDir).raw_nii.dirs
       = (mkWorld goodFs [] zOr).tmpDir.dirs
           ++ [(mkWorld goodFs [] zOr).tmpDir.name]) :=
  ⟨by decide, by decide,
   (claim7_materialize (mkCfg (nm "scan001.nii.gz") false false false false 2)
     (mkWorld goodFs [] zOr) resolvedGz (by decide)).1 (by decide)⟩

theorem sep_not_lead {s : Name} (hsd : '.' ∉ s) :
    SEP_DOT.isPrefixOf s = false := by
  cases s with
  | nil => rfl
  | cons c cs =>
    have h2 : ('.' : Char) ≠ c := fun h => hsd (List.mem_cons.mpr (Or.inl h))
    simp [SEP_DOT, nm, List.isPrefixOf, h2]

theorem add_suffix_name {p : PyPath} {s : Name} (hsd : '.' ∉ s) :
    add_suffix p s (some SEP_DOT)
      = ⟨p.dirs, pyStem p.name ++ '.' :: (s ++ pySuffix p.name)⟩ := by
  unfold add_suffix
  simp only [sep_not_lead hsd]
  simp [SEP_DOT, nm]

theorem add_suffix_name_eq {p : PyPath} {s : Name} (hsd : '.' ∉ s) :
    (add_suffix p s (some SEP_DOT)).name
      = pyStem p.name ++ '.' :: (s ++ pySuffix p.name) := by
  rw [add_suffix_name hsd]

theorem pyStem_dotCons {s : Name} (hsd : '.' ∉ s) :
    pyStem ('.' :: s) = '.' :: s ∧ pySuffix ('.' :: s) = [] := by
  have hsp := @splitLastDot_append [] s hsd
  simp at hsp
  unfold pyStem pySuffix
  rw [hsp]
  simp

/-- Stem and extension of an `add_suffix` result, in the three regimes
of the input name (with an extension, without one, empty). -/
theorem add_suffix_stem_suffix {p : PyPath} {s : Name}
    (hs : s ≠ []) (hsd : '.' ∉ s) :
    (pySuffix p.name ≠ [] →
      pyStem (add_suffix p s (some SEP_DOT)).name = pyStem p.name ++ '.' :: s ∧
      pySuffix (add_suffix p s (some SEP_DOT)).name = pySuffix p.name) ∧
    (pySuffix p.name = [] → p.name ≠ [] →
      pyStem (add_suffix p s (some SEP_DOT)).name = pyStem p.name ∧
      pySuffix (add_suffix p s (some SEP_DOT)).name = '.' :: s) ∧
    (p.name = [] →
      pyStem (add_suffix p s (some SEP_DOT)).name = '.' :: s ∧
      pySuffix (add_suffix p s (some SEP_DOT)).name = []) := by
  rw [add_suffix_name hsd]
  rcases pySuffix_cases p.name with hex | ⟨u, hexu, hu1, hu2, hst⟩
  · refine ⟨fun hc => absurd hex hc, fun _ hp => ?_, fun hp => ?_⟩
    · rw [hex]
      have hst : pyStem p.name ≠ [] := pyStem_ne_nil hp
      constructor
      · rw [show pyStem p.name ++ '.' :: (s ++ []) =
            pyStem p.name ++ '.' :: s by simp]
        exact pyStem_append hst hs hsd
      · rw [show pyStem p.name ++ '.' :: (s ++ []) =
            pyStem p.name ++ '.' :: s by simp]
        exact pySuffix_append hst hs hsd
    · have h0 : pyStem p.name = [] := by rw [hp]; rfl
      rw [hex, h0]
      simp
      exact pyStem_dotCons hsd
  · have hone : p.name ≠ [] := by
      intro h
      rw [h] at hexu
      simp [pySuffix] at hexu
      exact absurd hexu.symm (by simp [splitLastDot])
    refine ⟨fun _ => ?_, fun hc _ => absurd hexu (by rw [hc]; simp),
      fun hp => absurd hp hone⟩
    rw [hexu]
    have hassoc : pyStem p.name ++ '.' :: (s ++ '.' :: u)
        = (pyStem p.name ++ '.' :: s) ++ '.' :: u := by simp
    rw [hassoc]
    constructor
    · exact pyStem_append (by simp) hu2 hu1
    · exact pySuffix_append (by simp) hu2 hu1

theorem add_suffix_ne_self {p : PyPath} {s : Name}
    (hs : s ≠ []) (hsd : '.' ∉ s) :
    add_suffix p s (some SEP_DOT) ≠ p := by
  intro h
  have hn := congrArg PyPath.name h
  rw [add_suffix_name hsd] at hn
  simp at hn
  have hlen := congrArg List.length hn
  have hsplit := congrArg List.length (pyStem_append_pySuffix p.name)
  simp [List.length_append] at hlen hsplit
  have hpos : 0 < s.length := List.length_pos.mpr hs
  omega

theorem add_suffix_inj {p : PyPath} {s t : Name}
    (hsd : '.' ∉ s) (htd : '.' ∉ t) (hne : s ≠ t) :
    add_suffix p s (some SEP_DOT) ≠ add_suffix p t (some SEP_DOT) := by
  intro h
  have hn := congrArg PyPath.name h
  rw [add_suffix_name hsd, add_suffix_name htd] at hn
  simp at hn
  exact hne hn

theorem add_suffix_comm_ne {p : PyPath} {s t : Name}
    (hs : s ≠ []) (hsd : '.' ∉ s) (ht : t ≠ []) (htd : '.' ∉ t)
    (hne : s ≠ t) :
    add_suffix (add_suffix p s (some SEP_DOT)) t (some SEP_DOT)
      ≠ add_suffix (add_suffix p t (some SEP_DOT)) s (some SEP_DOT) := by
  intro h
  have hn := congrArg PyPath.name h
  rw [@add_suffix_name_eq (add_suffix p s (some SEP_DOT)) t htd,
      @add_suffix_name_eq (add_suffix p t (some SEP_DOT)) s hsd] at hn
  have hqs := @add_suffix_stem_suffix p s hs hsd
  have hqt := @add_suffix_stem_suffix p t ht htd
  rcases pySuffix_cases p.name with hex | ⟨u, hexu, hu1, hu2, hst⟩
  · by_cases hp : p.name = []
    · rcases hqs.2.2 hp with ⟨hs1, hs2⟩
      rcases hqt.2.2 hp with ⟨ht1, ht2⟩
      rw [hs1, hs2, ht1, ht2] at hn
      simp at hn
      exact hne (nodot_cancel hsd htd hn).1
    · rcases hqs.2.1 hex hp with ⟨hs1, hs2⟩
      rcases hqt.2.1 hex hp with ⟨ht1, ht2⟩
      rw [hs1, hs2, ht1, ht2] at hn
      simp at hn
      exact hne (nodot_cancel htd hsd hn).1.symm
  · have hexne : pySuffix p.name ≠ [] := by rw [hexu]; simp
    rcases hqs.1 hexne with ⟨hs1, hs2⟩
    rcases hqt.1 hexne with ⟨ht1, ht2⟩
    rw [hs1, hs2, ht1, ht2] at hn
    simp at hn
    exact hne (nodot_cancel hsd htd hn).1

/-- Claim C5: `add_suffix` (with the default dot separator and a
nonempty dot-free suffix, as all the semantic suffixes of the script
are) keeps the directory, splices the suffix between the stem and the
extension of the input name, never returns the input path itself,
yields distinct paths for distinct suffixes, on extension-bearing names
preserves the extension while extending the stem, and applications of
two distinct suffixes in the two orders never collide.  Determinism
(same inputs, same path) holds because `add_suffix` is a pure
function. -/
theorem claim5_artifact_derivation (p : PyPath) (s t : Name)
    (hs : s ≠ []) (hsd : '.' ∉ s) (ht : t ≠ []) (htd : '.' ∉ t)
    (hne : s ≠ t) :
    (add_suffix p s (some SEP_DOT)).dirs = p.dirs ∧
    (add_suffix p s (some SEP_DOT)).name
      = pyStem p.name ++ '.' :: (s ++ pySuffix p.name) ∧
    add_suffix p s (some SEP_DOT) ≠ p ∧
    add_suffix p s (some SEP_DOT) ≠ add_suffix p t (some SEP_DOT) ∧
    (pySuffix p.name ≠ [] →
      pySuffix (add_suffix p s (some SEP_DOT)).name = pySuffix p.name ∧
      pyStem (add_suffix p s (some SEP_DOT)).name
        = pyStem p.name ++ '.' :: s) ∧
    add_suffix (add_suffix p s (some SEP_DOT)) t (some SEP_DOT)
      ≠ add_suffix (add_suffix p t (some SEP_DOT)) s (some SEP_DOT) := by
  refine ⟨?_, ?_, add_suffix_ne_self hs hsd, add_suffix_inj hsd htd hne,
    ?_, add_suffix_comm_ne hs hsd ht htd hne⟩
  · rw [add_suffix_name hsd]
  · rw [add_suffix_name hsd]
  · intro hex
    rcases (@add_suffix_stem_suffix p s hs hsd).1 hex with ⟨h1, h2⟩
    exact ⟨h2, h1⟩

/-- Witness for claim C5 at a concrete path and the script's
`denoised` / `norm` suffixes. -/
theorem claim5_artifact_derivation_witness :
    (SUFFIX_DENOISED ≠ [] ∧ '.' ∉ SUFFIX_DENOISED ∧ SUFFIX_NORM ≠ [] ∧
      '.' ∉ SUFFIX_NORM ∧ SUFFIX_DENOISED ≠ SUFFIX_NORM) ∧
    ((add_suffix ⟨[nm "tmp"], nm "scan001.mnc"⟩ SUFFIX_DENOISED
        (some SEP_DOT)).dirs = [nm "tmp"] ∧
     (add_suffix ⟨[nm "tmp"], nm "scan001.mnc"⟩ SUFFIX_DENOISED
        (some SEP_DOT)).name
       = pyStem (nm "scan001.mnc")
           ++ '.' :: (SUFFIX_DENOISED ++ pySuffix (nm "scan001.mnc")) ∧
     add_suffix ⟨[nm "tmp"], nm "scan001.mnc"⟩ SUFFIX_DENOISED (some SEP_DOT)
       ≠ ⟨[nm "tmp"], nm "scan001.mnc"⟩ ∧
     add_suffix ⟨[nm "tmp"], nm "scan001.mnc"⟩ SUFFIX_DENOISED (some SEP_DOT)
       ≠ add_suffix ⟨[nm "tmp"], nm "scan001.mnc"⟩ SUFFIX_NORM (some SEP_DOT) ∧
     (pySuffix (PyPath.name ⟨[nm "tmp"], nm "scan001.mnc"⟩) ≠ [] →
       pySuffix (add_suffix ⟨[nm "tmp"], nm "scan001.mnc"⟩ SUFFIX_DENOISED
         (some SEP_DOT)).name
         = pySuffix (PyPath.name ⟨[nm "tmp"], nm "scan001.mnc"⟩) ∧
       pyStem (add_suffix ⟨[nm "tmp"], nm "scan001.mnc"⟩ SUFFIX_DENOISED
         (some SEP_DOT)).name
         = pyStem (PyPath.name ⟨[nm "tmp"], nm "scan001.mnc"⟩)
             ++ '.' :: SUFFIX_DENOISED) ∧
     add_suffix (add_suffix ⟨[nm "tmp"], nm "scan001.mnc"⟩ SUFFIX_DENOISED
         (some SEP_DOT)) SUFFIX_NORM (some SEP_DOT)
       ≠ add_suffix (add_suffix ⟨[nm "tmp"], nm "scan001.mnc"⟩ SUFFIX_NORM
         (some SEP_DOT)) SUFFIX_DENOISED (some SEP_DOT)) :=
  ⟨⟨by decide, by decide, by decide, by decide, by decide⟩,
   claim5_artifact_derivation ⟨[nm "tmp"], nm "scan001.mnc"⟩
     SUFFIX_DENOISED SUFFIX_NORM
     (by decide) (by decide) (by decide) (by decide) (by decide)⟩

theorem cpSrcOf_runEcho (a : List Name) : cpSrcOf (Ev.runEcho a) = none := rfl

theorem cpSrcOf_ne_cp {args : List Name} {rd : Option PyPath} {v : Name}
    (hhead : args.head? = some v) (hne : ¬v = nm "cp") :
    cpSrcOf (Ev.exec args rd) = none := by
  rcases args with _ | ⟨c0, _ | ⟨c1, _ | ⟨c2, rest⟩⟩⟩
  · simp at hhead
  · rfl
  · rfl
  · simp at hhead
    rw [← hhead] at hne
    simp [cpSrcOf, hne]

theorem reachedRuns_map_run_append {α : Type} (l : List α) (f : α → Cmd)
    (rest : List Step) :
    reachedRuns (l.map (fun x => Step.run (f x)) ++ rest)
      = l.map f ++ reachedRuns rest := by
  induction l with
  | nil => simp
  | cons a l2 ih => simpa [reachedRuns] using ih

theorem cpSrcs_wetTrace :
    ∀ steps : List Step,
      cpSrcs (wetTrace steps)
        = (reachedRuns steps).filterMap
            (fun c => cpSrcOf (Ev.exec (cmdArgs c) c.redirect)) := by
  intro steps
  induction steps with
  | nil => rfl
  | cons st rest ih =>
    cases st with
    | run c =>
      have h2 : reachedRuns (Step.run c :: rest) = c :: reachedRuns rest := rfl
      have h1 : wetTrace (Step.run c :: rest)
          = (if 0 < c.verb then [Ev.runEcho (cmdArgs c)] else [])
            ++ Ev.exec (cmdArgs c) c.redirect :: wetTrace rest := rfl
      rw [h1, h2, List.filterMap_cons, cpSrcs_append]
      have h3 : cpSrcs (if 0 < c.verb then [Ev.runEcho (cmdArgs c)] else [])
          = [] := by
        by_cases hv : 0 < c.verb <;> simp [hv, cpSrcs, cpSrcOf_runEcho]
      rw [h3]
      rcases hcp : cpSrcOf (Ev.exec (cmdArgs c) c.redirect) with _ | x <;>
        (simp [cpSrcs, List.filterMap_cons, hcp]; exact ih)
    | guard g e =>
      cases g with
      | true =>
        rw [show wetTrace (Step.guard true e :: rest) = wetTrace rest from rfl,
            show reachedRuns (Step.guard true e :: rest)
              = reachedRuns rest from rfl]
        exact ih
      | false => rfl

theorem cpSrcs_dateEvs (v : Nat) : cpSrcs (dateEvs v) = [] := by
  by_cases hv : 0 < v <;> simp [dateEvs, hv, cpSrcs, cpSrcOf]

theorem cpSrcOf_stage {v : Name} (hv : v ≠ []) (hne : ¬v = nm "cp")
    (rest : List Tok) (rd' : Option PyPath) (vb : Nat) (rd : Option PyPath) :
    cpSrcOf (Ev.exec (cmdArgs ⟨Tok.s v :: rest, rd', vb⟩) rd) = none :=
  cpSrcOf_ne_cp (cmdArgs_head_s hv rest rd' vb) hne

theorem cpSrcOf_cp (src out : PyPath) (v : Nat) (rd : Option PyPath) :
    cpSrcOf (Ev.exec (cmdArgs ⟨[Tok.s (nm "cp"), Tok.s (nm "-vfp"),
      Tok.p src, Tok.p out], none, v⟩) rd) = some (pathStr src) := by
  rw [cmdArgs_cons_s (by decide), cmdArgs_cons_s (by decide),
      cmdArgs_cons_p, cmdArgs_cons_p, cmdArgs_nil]
  simp [cpSrcOf]

theorem cpSrcOf_mat (r : Resolved) (a : Arts) (v : Nat) (rd : Option PyPath) :
    cpSrcOf (Ev.exec (cmdArgs (matCmd r a v)) rd) = none := by
  unfold matCmd
  split_ifs <;> exact cpSrcOf_stage (by decide) (by decide) _ _ _ _

theorem cpSrcOf_date (v : Nat) (rd : Option PyPath) :
    cpSrcOf (Ev.exec (cmdArgs (dateCmd v)) rd) = none := by
  rw [cmdArgs_dateCmd]
  rfl

theorem filterMap_some_map {α β : Type} (f : α → β) (l : List α) :
    List.filterMap (fun x => some (f x)) l = l.map f := by
  induction l with
  | nil => rfl
  | cons a l2 ih => simp [List.filterMap_cons, ih]

theorem filterMap_cp_map (l : List PyPath) (out : PyPath) (v : Nat) :
    List.filterMap (fun c => cpSrcOf (Ev.exec (cmdArgs c) c.redirect))
      (l.map fun x => (⟨[Tok.s (nm "cp"), Tok.s (nm "-vfp"),
        Tok.p x, Tok.p out], none, v⟩ : Cmd))
      = l.map pathStr := by
  induction l with
  | nil => rfl
  | cons a l2 ih => simp [List.filterMap_cons, cpSrcOf_cp, ih]

theorem filterMap_cp_comp (l : List PyPath) (out : PyPath) (v : Nat) :
    List.filterMap ((fun c => cpSrcOf (Ev.exec (cmdArgs c) c.redirect))
        ∘ fun x => (⟨[Tok.s (nm "cp"), Tok.s (nm "-vfp"),
          Tok.p x, Tok.p out], none, v⟩ : Cmd)) l
      = l.map pathStr := by
  induction l with
  | nil => rfl
  | cons a l2 ih => simp [List.filterMap_cons, Function.comp, cpSrcOf_cp, ih]

theorem cpSrcs_wetTrace_wsSteps {cfg : Cfg} {w : World} {r : Resolved}
    (hg : outGuardOk cfg w (mkArts cfg r w.tmpDir) = true) :
    cpSrcs (wetTrace (wsSteps cfg w r))
      = (copyList cfg w (mkArts cfg r w.tmpDir)).map pathStr := by
  rw [cpSrcs_wetTrace]
  simp [wsSteps, reachedRuns, hg, reachedRuns_map_run_append,
    List.filterMap_append, List.filterMap_cons, filterMap_cp_map,
    filterMap_cp_comp, cpSrcOf_mat, cpSrcOf_cp, cpSrcOf_date, filterMap_some_map,
    cpSrcOf_stage (show nm "nii2mnc" ≠ [] by decide) (by decide),
    cpSrcOf_stage (show nm "mincnlm" ≠ [] by decide) (by decide),
    cpSrcOf_stage (show nm "beast_normalize" ≠ [] by decide) (by decide),
    cpSrcOf_stage (show nm "mincbeast" ≠ [] by decide) (by decide),
    cpSrcOf_stage (show nm "minccalc" ≠ [] by decide) (by decide),
    cpSrcOf_stage (show nm "nlfit_s" ≠ [] by decide) (by decide),
    cpSrcOf_stage (show nm "pipeline_dbm.pl" ≠ [] by decide) (by decide),
    cpSrcOf_stage (show nm "mincreshape" ≠ [] by decide) (by decide),
    cpSrcOf_stage (show nm "mnc2nii" ≠ [] by decide) (by decide),
    cpSrcOf_stage (show nm "ls" ≠ [] by decide) (by decide)]

theorem withSuffix_name_eq (q : PyPath) (ext : Name) :
    (withSuffix q ext).name = pyStem q.name ++ ext := rfl

theorem step_name {q : PyPath} {B post : Name} (hq : q.name = B ++ '.' :: post)
    (hB : B ≠ []) (hpost : post ≠ []) (hpd : '.' ∉ post)
    {sfx : Name} (hsd : '.' ∉ sfx) :
    (add_suffix q sfx (some SEP_DOT)).name
      = B ++ '.' :: (sfx ++ '.' :: post) := by
  rw [add_suffix_name_eq hsd, hq, pyStem_append hB hpost hpd,
    pySuffix_append hB hpost hpd]

theorem stepW_name {q : PyPath} {B post : Name} (hq : q.name = B ++ '.' :: post)
    (hB : B ≠ []) (hpost : post ≠ []) (hpd : '.' ∉ post) (ext : Name) :
    (withSuffix q ext).name = B ++ ext := by
  rw [withSuffix_name_eq, hq, pyStem_append hB hpost hpd]

theorem append_tail_ne_nil {a b : Name} (hb : b ≠ []) : a ++ b ≠ [] :=
  fun h => hb (List.append_eq_nil.mp h).2

theorem appB_ne {B t1 t2 : Name} (h : t1 ≠ t2) : B ++ t1 ≠ B ++ t2 :=
  fun hc => h (List.append_cancel_left hc)

theorem pathStr_ne_of_name_ne {p q : PyPath} (hd : p.dirs = q.dirs)
    (hn : p.name ≠ q.name) : pathStr p ≠ pathStr q := by
  intro h
  unfold pathStr at h
  rw [hd] at h
  exact hn (List.append_cancel_left h)

theorem strEndsWith_ne_nil {n pat : Name} (h : strEndsWith n pat = true)
    (hp : pat ≠ []) : n ≠ [] := by
  have hs : pat <:+ n := by simpa [strEndsWith] using h
  obtain ⟨b, hb⟩ := hs
  intro h0
  rw [h0] at hb
  exact hp (List.append_eq_nil.mp hb).2

theorem raw_nii_name_ne_nil (cfg : Cfg) (r : Resolved) (tmp : PyPath)
    (hn : r.fpath_nifti.name ≠ []) :
    (mkArts cfg r tmp).raw_nii.name ≠ [] := by
  unfold mkArts
  split_ifs <;> simp [joinDir]
  · exact pyStem_ne_nil hn
  · exact hn

/-- The names of the stage artifacts: each is the materialized stem `B`
followed by the accumulated semantic suffixes and the extension. -/
theorem mkArts_names (cfg : Cfg) (r : Resolved) (tmp : PyPath)
    (hn : r.fpath_nifti.name ≠ []) :
    pyStem (mkArts cfg r tmp).raw_nii.name ≠ [] ∧
    (mkArts cfg r tmp).raw.name
      = pyStem (mkArts cfg r tmp).raw_nii.name ++ nm ".mnc" ∧
    (mkArts cfg r tmp).denoised.name
      = pyStem (mkArts cfg r tmp).raw_nii.name ++ nm ".denoised.mnc" ∧
    (mkArts cfg r tmp).norm.name
      = pyStem (mkArts cfg r tmp).raw_nii.name ++ nm ".denoised.norm.mnc" ∧
    (mkArts cfg r tmp).norm_xfm.name
      = pyStem (mkArts cfg r tmp).raw_nii.name ++ nm ".denoised.norm.xfm" ∧
    (mkArts cfg r tmp).mask.name
      = pyStem (mkArts cfg r tmp).raw_nii.name ++ nm ".denoised.norm.mask.mnc" ∧
    (mkArts cfg r tmp).extracted.name
      = pyStem (mkArts cfg r tmp).raw_nii.name
          ++ nm ".denoised.norm.extracted.mnc" ∧
    (mkArts cfg r tmp).nonlinear.name
      = pyStem (mkArts cfg r tmp).raw_nii.name
          ++ nm ".denoised.norm.extracted.nl.mnc" ∧
    (mkArts cfg r tmp).nl_xfm.name
      = pyStem (mkArts cfg r tmp).raw_nii.name
          ++ nm ".denoised.norm.extracted.nl.xfm" ∧
    (mkArts cfg r tmp).dbm.name
      = pyStem (mkArts cfg r tmp).raw_nii.name
          ++ nm ".denoised.norm.extracted.nl.dbm.mnc" ∧
    (mkArts cfg r tmp).dbm_reshaped.name
      = pyStem (mkArts cfg r tmp).raw_nii.name
          ++ nm ".denoised.norm.extracted.nl.dbm.reshaped.mnc" ∧
    (mkArts cfg r tmp).dbm_nii.name
      = pyStem (mkArts cfg r tmp).raw_nii.name
          ++ nm ".denoised.norm.extracted.nl.dbm.reshaped.nii" := by
  have hB : pyStem (mkArts cfg r tmp).raw_nii.name ≠ [] :=
    pyStem_ne_nil (raw_nii_name_ne_nil cfg r tmp hn)
  have hraw : (mkArts cfg r tmp).raw.name
      = pyStem (mkArts cfg r tmp).raw_nii.name ++ '.' :: nm "mnc" := rfl
  have hden0 := step_name hraw hB (by decide) (by decide)
    (show '.' ∉ SUFFIX_DENOISED by decide)
  have hden : (mkArts cfg r tmp).denoised.name
      = (pyStem (mkArts cfg r tmp).raw_nii.name ++ nm ".denoised")
          ++ '.' :: nm "mnc" := by
    rw [show (mkArts cfg r tmp).denoised
        = add_suffix (mkArts cfg r tmp).raw SUFFIX_DENOISED (some SEP_DOT)
        from rfl, hden0]
    simp [nm, SUFFIX_DENOISED, SUFFIX_NORM, SUFFIX_MASK, SUFFIX_EXTRACTED, SUFFIX_NONLINEAR, SUFFIX_DBM, SUFFIX_RESHAPED]
  have hB2 : pyStem (mkArts cfg r tmp).raw_nii.name ++ nm ".denoised" ≠ [] :=
    append_tail_ne_nil (by decide)
  have hnorm0 := step_name hden hB2 (by decide) (by decide)
    (show '.' ∉ SUFFIX_NORM by decide)
  have hnorm : (mkArts cfg r tmp).norm.name
      = ((pyStem (mkArts cfg r tmp).raw_nii.name ++ nm ".denoised")
          ++ nm ".norm") ++ '.' :: nm "mnc" := by
    rw [show (mkArts cfg r tmp).norm
        = add_suffix (mkArts cfg r tmp).denoised SUFFIX_NORM (some SEP_DOT)
        from rfl, hnorm0]
    simp [nm, SUFFIX_DENOISED, SUFFIX_NORM, SUFFIX_MASK, SUFFIX_EXTRACTED, SUFFIX_NONLINEAR, SUFFIX_DBM, SUFFIX_RESHAPED]
  have hB3 : (pyStem (mkArts cfg r tmp).raw_nii.name ++ nm ".denoised")
      ++ nm ".norm" ≠ [] := append_tail_ne_nil (by decide)
  have hnormxfm : (mkArts cfg r tmp).norm_xfm.name
      = ((pyStem (mkArts cfg r tmp).raw_nii.name ++ nm ".denoised")
          ++ nm ".norm") ++ nm ".xfm" := by
    rw [show (mkArts cfg r tmp).norm_xfm
        = withSuffix (mkArts cfg r tmp).norm EXT_TRANSFORM from rfl]
    exact stepW_name hnorm hB3 (by decide) (by decide) _
  have hmask0 := step_name hnorm hB3 (by decide) (by decide)
    (show '.' ∉ SUFFIX_MASK by decide)
  have hmask : (mkArts cfg r tmp).mask.name
      = ((pyStem (mkArts cfg r tmp).raw_nii.name ++ nm ".denoised")
          ++ nm ".norm") ++ '.' :: (nm "mask" ++ '.' :: nm "mnc") := by
    rw [show (mkArts cfg r tmp).mask
        = add_suffix (mkArts cfg r tmp).norm SUFFIX_MASK (some SEP_DOT)
        from rfl]
    exact hmask0
  have hext0 := step_name hnorm hB3 (by decide) (by decide)
    (show '.' ∉ SUFFIX_EXTRACTED by decide)
  have hext : (mkArts cfg r tmp).extracted.name
      = (((pyStem (mkArts cfg r tmp).raw_nii.name ++ nm ".denoised")
          ++ nm ".norm") ++ nm ".extracted") ++ '.' :: nm "mnc" := by
    rw [show (mkArts cfg r tmp).extracted
        = add_suffix (mkArts cfg r tmp).norm SUFFIX_EXTRACTED (some SEP_DOT)
        from rfl, hext0]
    simp [nm, SUFFIX_DENOISED, SUFFIX_NORM, SUFFIX_MASK, SUFFIX_EXTRACTED, SUFFIX_NONLINEAR, SUFFIX_DBM, SUFFIX_RESHAPED]
  have hB4 : ((pyStem (mkArts cfg r tmp).raw_nii.name ++ nm ".denoised")
      ++ nm ".norm") ++ nm ".extracted" ≠ [] := append_tail_ne_nil (by decide)
  have hnl0 := step_name hext hB4 (by decide) (by decide)
    (show '.' ∉ SUFFIX_NONLINEAR by decide)
  have hnl : (mkArts cfg r tmp).nonlinear.name
      = ((((pyStem (mkArts cfg r tmp).raw_nii.name ++ nm ".denoised")
          ++ nm ".norm") ++ nm ".extracted") ++ nm ".nl") ++ '.' :: nm "mnc" := by
    rw [show (mkArts cfg r tmp).nonlinear
        = add_suffix (mkArts cfg r tmp).extracted SUFFIX_NONLINEAR
            (some SEP_DOT) from rfl, hnl0]
    simp [nm, SUFFIX_DENOISED, SUFFIX_NORM, SUFFIX_MASK, SUFFIX_EXTRACTED, SUFFIX_NONLINEAR, SUFFIX_DBM, SUFFIX_RESHAPED]
  have hB5 : (((pyStem (mkArts cfg r tmp).raw_nii.name ++ nm ".denoised")
      ++ nm ".norm") ++ nm ".extracted") ++ nm ".nl" ≠ [] :=
    append_tail_ne_nil (by decide)
  have hnlxfm : (mkArts cfg r tmp).nl_xfm.name
      = ((((pyStem (mkArts cfg r tmp).raw_nii.name ++ nm ".denoised")
          ++ nm ".norm") ++ nm ".extracted") ++ nm ".nl") ++ nm ".xfm" := by
    rw [show (mkArts cfg r tmp).nl_xfm
        = withSuffix (mkArts cfg r tmp).nonlinear EXT_TRANSFORM from rfl]
    exact stepW_name hnl hB5 (by decide) (by decide) _
  have hdbm0 := step_name hnl hB5 (by decide) (by decide)
    (show '.' ∉ SUFFIX_DBM by decide)
  have hdbm : (mkArts cfg r tmp).dbm.name
      = (((((pyStem (mkArts cfg r tmp).raw_nii.name ++ nm ".denoised")
          ++ nm ".norm") ++ nm ".extracted") ++ nm ".nl") ++ nm ".dbm")
          ++ '.' :: nm "mnc" := by
    rw [show (mkArts cfg r tmp).dbm
        = add_suffix (mkArts cfg r tmp).nonlinear SUFFIX_DBM (some SEP_DOT)
        from rfl, hdbm0]
    simp [nm, SUFFIX_DENOISED, SUFFIX_NORM, SUFFIX_MASK, SUFFIX_EXTRACTED, SUFFIX_NONLINEAR, SUFFIX_DBM, SUFFIX_RESHAPED]
  have hB6 : ((((pyStem (mkArts cfg r tmp).raw_nii.name ++ nm ".denoised")
      ++ nm ".norm") ++ nm ".extracted") ++ nm ".nl") ++ nm ".dbm" ≠ [] :=
    append_tail_ne_nil (by decide)
  have hrsh0 := step_name hdbm hB6 (by decide) (by decide)
    (show '.' ∉ SUFFIX_RESHAPED by decide)
  have hrsh : (mkArts cfg r tmp).dbm_reshaped.name
      = ((((((pyStem (mkArts cfg r tmp).raw_nii.name ++ nm ".denoised")
          ++ nm ".norm") ++ nm ".extracted") ++ nm ".nl") ++ nm ".dbm")
          ++ nm ".reshaped") ++ '.' :: nm "mnc" := by
    rw [show (mkArts cfg r tmp).dbm_reshaped
        = add_suffix (mkArts cfg r tmp).dbm SUFFIX_RESHAPED (some SEP_DOT)
        from rfl, hrsh0]
    simp [nm, SUFFIX_DENOISED, SUFFIX_NORM, SUFFIX_MASK, SUFFIX_EXTRACTED, SUFFIX_NONLINEAR, SUFFIX_DBM, SUFFIX_RESHAPED]
  have hB7 : (((((pyStem (mkArts cfg r tmp).raw_nii.name ++ nm ".denoised")
      ++ nm ".norm") ++ nm ".extracted") ++ nm ".nl") ++ nm ".dbm")
      ++ nm ".reshaped" ≠ [] := append_tail_ne_nil (by decide)
  have hniiout : (mkArts cfg r tmp).dbm_nii.name
      = ((((((pyStem (mkArts cfg r tmp).raw_nii.name ++ nm ".denoised")
          ++ nm ".norm") ++ nm ".extracted") ++ nm ".nl") ++ nm ".dbm")
          ++ nm ".reshaped") ++ nm ".nii" := by
    rw [show (mkArts cfg r tmp).dbm_nii
        = withSuffix (mkArts cfg r tmp).dbm_reshaped EXT_NIFTI from rfl]
    exact stepW_name hrsh hB7 (by decide) (by decide) _
  refine ⟨hB, rfl, ?_, ?_, ?_, ?_, ?_, ?_, ?_, ?_, ?_, ?_⟩
  · rw [hden]; simp [nm, SUFFIX_DENOISED, SUFFIX_NORM, SUFFIX_MASK, SUFFIX_EXTRACTED, SUFFIX_NONLINEAR, SUFFIX_DBM, SUFFIX_RESHAPED]
  · rw [hnorm]; simp [nm, SUFFIX_DENOISED, SUFFIX_NORM, SUFFIX_MASK, SUFFIX_EXTRACTED, SUFFIX_NONLINEAR, SUFFIX_DBM, SUFFIX_RESHAPED]
  · rw [hnormxfm]; simp [nm, SUFFIX_DENOISED, SUFFIX_NORM, SUFFIX_MASK, SUFFIX_EXTRACTED, SUFFIX_NONLINEAR, SUFFIX_DBM, SUFFIX_RESHAPED]
  · rw [hmask]; simp [nm, SUFFIX_DENOISED, SUFFIX_NORM, SUFFIX_MASK, SUFFIX_EXTRACTED, SUFFIX_NONLINEAR, SUFFIX_DBM, SUFFIX_RESHAPED]
  · rw [hext]; simp [nm, SUFFIX_DENOISED, SUFFIX_NORM, SUFFIX_MASK, SUFFIX_EXTRACTED, SUFFIX_NONLINEAR, SUFFIX_DBM, SUFFIX_RESHAPED]
  · rw [hnl]; simp [nm, SUFFIX_DENOISED, SUFFIX_NORM, SUFFIX_MASK, SUFFIX_EXTRACTED, SUFFIX_NONLINEAR, SUFFIX_DBM, SUFFIX_RESHAPED]
  · rw [hnlxfm]; simp [nm, SUFFIX_DENOISED, SUFFIX_NORM, SUFFIX_MASK, SUFFIX_EXTRACTED, SUFFIX_NONLINEAR, SUFFIX_DBM, SUFFIX_RESHAPED]
  · rw [hdbm]; simp [nm, SUFFIX_DENOISED, SUFFIX_NORM, SUFFIX_MASK, SUFFIX_EXTRACTED, SUFFIX_NONLINEAR, SUFFIX_DBM, SUFFIX_RESHAPED]
  · rw [hrsh]; simp [nm, SUFFIX_DENOISED, SUFFIX_NORM, SUFFIX_MASK, SUFFIX_EXTRACTED, SUFFIX_NONLINEAR, SUFFIX_DBM, SUFFIX_RESHAPED]
  · rw [hniiout]; simp [nm, SUFFIX_DENOISED, SUFFIX_NORM, SUFFIX_MASK, SUFFIX_EXTRACTED, SUFFIX_NONLINEAR, SUFFIX_DBM, SUFFIX_RESHAPED]

/-- All stage artifacts live in the directory of the materialized scan
(the temporary workspace). -/
theorem mkArts_dirs (cfg : Cfg) (r : Resolved) (tmp : PyPath) :
    (mkArts cfg r tmp).raw.dirs = (mkArts cfg r tmp).raw_nii.dirs ∧
    (mkArts cfg r tmp).denoised.dirs = (mkArts cfg r tmp).raw_nii.dirs ∧
    (mkArts cfg r tmp).norm.dirs = (mkArts cfg r tmp).raw_nii.dirs ∧
    (mkArts cfg r tmp).norm_xfm.dirs = (mkArts cfg r tmp).raw_nii.dirs ∧
    (mkArts cfg r tmp).mask.dirs = (mkArts cfg r tmp).raw_nii.dirs ∧
    (mkArts cfg r tmp).extracted.dirs = (mkArts cfg r tmp).raw_nii.dirs ∧
    (mkArts cfg r tmp).nonlinear.dirs = (mkArts cfg r tmp).raw_nii.dirs ∧
    (mkArts cfg r tmp).nl_xfm.dirs = (mkArts cfg r tmp).raw_nii.dirs ∧
    (mkArts cfg r tmp).dbm.dirs = (mkArts cfg r tmp).raw_nii.dirs ∧
    (mkArts cfg r tmp).dbm_reshaped.dirs = (mkArts cfg r tmp).raw_nii.dirs ∧
    (mkArts cfg r tmp).dbm_nii.dirs = (mkArts cfg r tmp).raw_nii.dirs := by
  have eraw : (mkArts cfg r tmp).raw
      = withSuffix (mkArts cfg r tmp).raw_nii EXT_MINC := rfl
  have eden : (mkArts cfg r tmp).denoised
      = add_suffix (mkArts cfg r tmp).raw SUFFIX_DENOISED (some SEP_DOT) := rfl
  have enorm : (mkArts cfg r tmp).norm
      = add_suffix (mkArts cfg r tmp).denoised SUFFIX_NORM (some SEP_DOT) := rfl
  have enxfm : (mkArts cfg r tmp).norm_xfm
      = withSuffix (mkArts cfg r tmp).norm EXT_TRANSFORM := rfl
  have emask : (mkArts cfg r tmp).mask
      = add_suffix (mkArts cfg r tmp).norm SUFFIX_MASK (some SEP_DOT) := rfl
  have eext : (mkArts cfg r tmp).extracted
      = add_suffix (mkArts cfg r tmp).norm SUFFIX_EXTRACTED (some SEP_DOT) := rfl
  have enl : (mkArts cfg r tmp).nonlinear
      = add_suffix (mkArts cfg r tmp).extracted SUFFIX_NONLINEAR
          (some SEP_DOT) := rfl
  have enlx : (mkArts cfg r tmp).nl_xfm
      = withSuffix (mkArts cfg r tmp).nonlinear EXT_TRANSFORM := rfl
  have edbm : (mkArts cfg r tmp).dbm
      = add_suffix (mkArts cfg r tmp).nonlinear SUFFIX_DBM (some SEP_DOT) := rfl
  have ersh : (mkArts cfg r tmp).dbm_reshaped
      = add_suffix (mkArts cfg r tmp).dbm SUFFIX_RESHAPED (some SEP_DOT) := rfl
  have enii : (mkArts cfg r tmp).dbm_nii
      = withSuffix (mkArts cfg r tmp).dbm_reshaped EXT_NIFTI := rfl
  have wdirs : ∀ (p : PyPath) (ext : Name), (withSuffix p ext).dirs = p.dirs :=
    fun _ _ => rfl
  have adirs : ∀ (p : PyPath) (sf : Name),
      (add_suffix p sf (some SEP_DOT)).dirs = p.dirs := fun _ _ => rfl
  refine ⟨?_, ?_, ?_, ?_, ?_, ?_, ?_, ?_, ?_, ?_, ?_⟩
  · rw [eraw, wdirs]
  · rw [eden, adirs, eraw, wdirs]
  · rw [enorm, adirs, eden, adirs, eraw, wdirs]
  · rw [enxfm, wdirs, enorm, adirs, eden, adirs, eraw, wdirs]
  · rw [emask, adirs, enorm, adirs, eden, adirs, eraw, wdirs]
  · rw [eext, adirs, enorm, adirs, eden, adirs, eraw, wdirs]
  · rw [enl, adirs, eext, adirs, enorm, adirs, eden, adirs, eraw, wdirs]
  · rw [enlx, wdirs, enl, adirs, eext, adirs, enorm, adirs, eden, adirs, eraw, wdirs]
  · rw [edbm, adirs, enl, adirs, eext, adirs, enorm, adirs, eden, adirs, eraw, wdirs]
  · rw [ersh, adirs, edbm, adirs, enl, adirs, eext, adirs, enorm, adirs, eden, adirs, eraw, wdirs]
  · rw [enii, wdirs, ersh, adirs, edbm, adirs, enl, adirs, eext, adirs, enorm, adirs, eden, adirs, eraw, wdirs]

theorem cmdArgs_cp (src out : PyPath) (v : Nat) :
    cmdArgs ⟨[Tok.s (nm "cp"), Tok.s (nm "-vfp"), Tok.p src, Tok.p out],
        none, v⟩
      = [nm "cp", nm "-vfp", pathStr src, pathStr out] := rfl

/-- Every `cp` command planned inside the workspace block targets the
output subdirectory as its last argument. -/
theorem wsSteps_cp_dest {cfg : Cfg} {w : World} {r : Resolved} {c : Cmd}
    (hc : Step.run c ∈ wsSteps cfg w r)
    (hhead : (cmdArgs c).head? = some (nm "cp")) :
    (cmdArgs c).getLast? = some (pathStr (mkArts cfg r w.tmpDir).out_sub) := by
  simp [wsSteps] at hc
  rcases hc with hc|hc|hc|hc|hc|hc|hc|hc|hc|hc|hc|⟨src, hsrc, hc⟩|hc|hc <;>
    subst hc <;>
    first
      | (rw [cmdArgs_head_s (by decide)] at hhead
         exact absurd hhead (by decide))
      | (rcases matCmd_head r (mkArts cfg r w.tmpDir)
            (if cfg.quiet = true then 0 else cfg.verbosity) with hh | hh <;>
          rw [hh] at hhead <;> exact absurd hhead (by decide))
      | (rw [cmdArgs_dateCmd] at hhead
         exact absurd hhead (by decide))
      | (rw [cmdArgs_cp]
         rfl)

/-- Claim C8: in a successful real run, every executed `cp` targets the
output subdirectory, and in save-subset mode the sources copied are
exactly the five curated artifacts (denoised, mask, extracted,
nonlinear, final DBM NIfTI), pairwise distinct, and none of the
transform files or raw/intermediate MINC files is among them; in
save-all mode the sources are exactly the files of the workspace. -/
theorem claim8_copy_set (cfg : Cfg) (w : World) (r : Resolved)
    (hdry : cfg.dry_run = false) (ho : ∀ i, w.oracle i = 0)
    (hv : validate cfg w = Except.ok r)
    (hg : outGuardOk cfg w (mkArts cfg r w.tmpDir) = true) :
    (∀ args rd, Ev.exec args rd ∈ (runPipeline cfg w).events →
      args.head? = some (nm "cp") →
      args.getLast? = some (pathStr (mkArts cfg r w.tmpDir).out_sub)) ∧
    (cfg.save_all = false →
      cpSrcs (runPipeline cfg w).events
        = [pathStr (mkArts cfg r w.tmpDir).denoised,
           pathStr (mkArts cfg r w.tmpDir).mask,
           pathStr (mkArts cfg r w.tmpDir).extracted,
           pathStr (mkArts cfg r w.tmpDir).nonlinear,
           pathStr (mkArts cfg r w.tmpDir).dbm_nii] ∧
      List.Pairwise (fun x y => x ≠ y) (cpSrcs (runPipeline cfg w).events) ∧
      pathStr (mkArts cfg r w.tmpDir).raw
        ∉ cpSrcs (runPipeline cfg w).events ∧
      pathStr (mkArts cfg r w.tmpDir).norm
        ∉ cpSrcs (runPipeline cfg w).events ∧
      pathStr (mkArts cfg r w.tmpDir).norm_xfm
        ∉ cpSrcs (runPipeline cfg w).events ∧
      pathStr (mkArts cfg r w.tmpDir).nl_xfm
        ∉ cpSrcs (runPipeline cfg w).events ∧
      pathStr (mkArts cfg r w.tmpDir).dbm
        ∉ cpSrcs (runPipeline cfg w).events ∧
      pathStr (mkArts cfg r w.tmpDir).dbm_reshaped
        ∉ cpSrcs (runPipeline cfg w).events) ∧
    (cfg.save_all = true →
      cpSrcs (runPipeline cfg w).events
        = w.tmpFiles.map (fun c => pathStr (joinDir w.tmpDir c))) := by
  have hends := (validate_ok_spec hv).2.2.2.2.2.1
  have hn : r.fpath_nifti.name ≠ [] := by
    rcases hends with h | h
    · exact strEndsWith_ne_nil h (by decide)
    · exact strEndsWith_ne_nil h (by decide)
  have hev : (runPipeline cfg w).events
      = dateEvs cfg.verbosity ++ wetTrace (wsSteps cfg w r) := by
    rw [pipeline_wet_ok hdry ho hv, stepsRes_wsSteps_guardTrue hg]
  have hcp : cpSrcs (runPipeline cfg w).events
      = (copyList cfg w (mkArts cfg r w.tmpDir)).map pathStr := by
    rw [hev, cpSrcs_append, cpSrcs_dateEvs, cpSrcs_wetTrace_wsSteps hg]
    simp
  obtain ⟨hB, hraw, hden, hnorm, hnxfm, hmask, hext, hnl, hnlxfm, hdbm,
    hrsh, hnii⟩ := mkArts_names cfg r w.tmpDir hn
  have key : ∀ (p q : PyPath) (t1 t2 : Name),
      p.dirs = q.dirs →
      p.name = pyStem (mkArts cfg r w.tmpDir).raw_nii.name ++ t1 →
      q.name = pyStem (mkArts cfg r w.tmpDir).raw_nii.name ++ t2 →
      t1 ≠ t2 → pathStr p ≠ pathStr q := by
    intro p q t1 t2 hd hp hq hne
    refine pathStr_ne_of_name_ne hd ?_
    rw [hp, hq]
    exact appB_ne hne
  obtain ⟨draw, dden, dnorm, dnxfm, dmask, dext, dnl, dnlxfm, ddbm, drsh,
    dnii⟩ := mkArts_dirs cfg r w.tmpDir
  have nDM := key _ _ _ _ (dden.trans dmask.symm) hden hmask (by decide)
  have nDE := key _ _ _ _ (dden.trans dext.symm) hden hext (by decide)
  have nDN := key _ _ _ _ (dden.trans dnl.symm) hden hnl (by decide)
  have nDI := key _ _ _ _ (dden.trans dnii.symm) hden hnii (by decide)
  have nME := key _ _ _ _ (dmask.trans dext.symm) hmask hext (by decide)
  have nMN := key _ _ _ _ (dmask.trans dnl.symm) hmask hnl (by decide)
  have nMI := key _ _ _ _ (dmask.trans dnii.symm) hmask hnii (by decide)
  have nEN := key _ _ _ _ (dext.trans dnl.symm) hext hnl (by decide)
  have nEI := key _ _ _ _ (dext.trans dnii.symm) hext hnii (by decide)
  have nNI := key _ _ _ _ (dnl.trans dnii.symm) hnl hnii (by decide)
  refine ⟨?_, ?_, ?_⟩
  · intro args rd hmem hhd
    rcases exec_mem_pipeline hmem with hdate | ⟨r2, c, hval2, hc, ha, _⟩
    · rw [hdate] at hhd
      exact absurd hhd (by decide)
    · rw [hv] at hval2
      have hr2 : r2 = r := by
        have h2 := hval2
        simp at h2
        exact h2.symm
      rw [hr2] at hc
      rw [ha] at hhd ⊢
      exact wsSteps_cp_dest (reachedRuns_subset hc) hhd
  · intro hsa
    have hlist : cpSrcs (runPipeline cfg w).events
        = [pathStr (mkArts cfg r w.tmpDir).denoised,
           pathStr (mkArts cfg r w.tmpDir).mask,
           pathStr (mkArts cfg r w.tmpDir).extracted,
           pathStr (mkArts cfg r w.tmpDir).nonlinear,
           pathStr (mkArts cfg r w.tmpDir).dbm_nii] := by
      rw [hcp]
      simp [copyList, hsa]
    have notmem5 : ∀ {x : Name},
        x ≠ pathStr (mkArts cfg r w.tmpDir).denoised →
        x ≠ pathStr (mkArts cfg r w.tmpDir).mask →
        x ≠ pathStr (mkArts cfg r w.tmpDir).extracted →
        x ≠ pathStr (mkArts cfg r w.tmpDir).nonlinear →
        x ≠ pathStr (mkArts cfg r w.tmpDir).dbm_nii →
        x ∉ cpSrcs (runPipeline cfg w).events := by
      intro x h1 h2 h3 h4 h5 hmem
      rw [hlist] at hmem
      rcases List.mem_cons.mp hmem with h | hmem
      · exact h1 h
      rcases List.mem_cons.mp hmem with h | hmem
      · exact h2 h
      rcases List.mem_cons.mp hmem with h | hmem
      · exact h3 h
      rcases List.mem_cons.mp hmem with h | hmem
      · exact h4 h
      rcases List.mem_cons.mp hmem with h | hmem
      · exact h5 h
      exact absurd hmem (List.not_mem_nil _)
    refine ⟨hlist, ?_, ?_, ?_, ?_, ?_, ?_, ?_⟩
    · rw [hlist]
      refine List.Pairwise.cons ?_ (List.Pairwise.cons ?_
        (List.Pairwise.cons ?_ (List.Pairwise.cons ?_
          (List.Pairwise.cons ?_ List.Pairwise.nil))))
      · intro y hy
        rcases List.mem_cons.mp hy with rfl | hy
        · exact nDM
        rcases List.mem_cons.mp hy with rfl | hy
        · exact nDE
        rcases List.mem_cons.mp hy with rfl | hy
        · exact nDN
        rcases List.mem_cons.mp hy with rfl | hy
        · exact nDI
        exact absurd hy (List.not_mem_nil _)
      · intro y hy
        rcases List.mem_cons.mp hy with rfl | hy
        · exact nME
        rcases List.mem_cons.mp hy with rfl | hy
        · exact nMN
        rcases List.mem_cons.mp hy with rfl | hy
        · exact nMI
        exact absurd hy (List.not_mem_nil _)
      · intro y hy
        rcases List.mem_cons.mp hy with rfl | hy
        · exact nEN
        rcases List.mem_cons.mp hy with rfl | hy
        · exact nEI
        exact absurd hy (List.not_mem_nil _)
      · intro y hy
        rcases List.mem_cons.mp hy with rfl | hy
        · exact nNI
        exact absurd hy (List.not_mem_nil _)
      · intro y hy
        exact absurd hy (List.not_mem_nil _)
    · exact notmem5
        (key _ _ _ _ (draw.trans dden.symm) hraw hden (by decide))
        (key _ _ _ _ (draw.trans dmask.symm) hraw hmask (by decide))
        (key _ _ _ _ (draw.trans dext.symm) hraw hext (by decide))
        (key _ _ _ _ (draw.trans dnl.symm) hraw hnl (by decide))
        (key _ _ _ _ (draw.trans dnii.symm) hraw hnii (by decide))
    · exact notmem5
        (key _ _ _ _ (dnorm.trans dden.symm) hnorm hden (by decide))
        (key _ _ _ _ (dnorm.trans dmask.symm) hnorm hmask (by decide))
        (key _ _ _ _ (dnorm.trans dext.symm) hnorm hext (by decide))
        (key _ _ _ _ (dnorm.trans dnl.symm) hnorm hnl (by decide))
        (key _ _ _ _ (dnorm.trans dnii.symm) hnorm hnii (by decide))
    · exact notmem5
        (key _ _ _ _ (dnxfm.trans dden.symm) hnxfm hden (by decide))
        (key _ _ _ _ (dnxfm.trans dmask.symm) hnxfm hmask (by decide))
        (key _ _ _ _ (dnxfm.trans dext.symm) hnxfm hext (by decide))
        (key _ _ _ _ (dnxfm.trans dnl.symm) hnxfm hnl (by decide))
        (key _ _ _ _ (dnxfm.trans dnii.symm) hnxfm hnii (by decide))
    · exact notmem5
        (key _ _ _ _ (dnlxfm.trans dden.symm) hnlxfm hden (by decide))
        (key _ _ _ _ (dnlxfm.trans dmask.symm) hnlxfm hmask (by decide))
        (key _ _ _ _ (dnlxfm.trans dext.symm) hnlxfm hext (by decide))
        (key _ _ _ _ (dnlxfm.trans dnl.symm) hnlxfm hnl (by decide))
        (key _ _ _ _ (dnlxfm.trans dnii.symm) hnlxfm hnii (by decide))
    · exact notmem5
        (key _ _ _ _ (ddbm.trans dden.symm) hdbm hden (by decide))
        (key _ _ _ _ (ddbm.trans dmask.symm) hdbm hmask (by decide))
        (key _ _ _ _ (ddbm.trans dext.symm) hdbm hext (by decide))
        (key _ _ _ _ (ddbm.trans dnl.symm) hdbm hnl (by decide))
        (key _ _ _ _ (ddbm.trans dnii.symm) hdbm hnii (by decide))
    · exact notmem5
        (key _ _ _ _ (drsh.trans dden.symm) hrsh hden (by decide))
        (key _ _ _ _ (drsh.trans dmask.symm) hrsh hmask (by decide))
        (key _ _ _ _ (drsh.trans dext.symm) hrsh hext (by decide))
        (key _ _ _ _ (drsh.trans dnl.symm) hrsh hnl (by decide))
        (key _ _ _ _ (drsh.trans dnii.symm) hrsh hnii (by decide))
  · intro hsa
    rw [hcp]
    simp [copyList, hsa, List.map_map, Function.comp]

/-- Witness for claim C8: the concrete save-subset run of the gzipped
scenario copies exactly the five curated artifacts and omits every
transform and intermediate MINC file. -/
theorem claim8_copy_set_witness :
    validate c8cfg c8w = Except.ok resolvedGz ∧
    (cpSrcs (runPipeline c8cfg c8w).events
       = [pathStr c8a.denoised, pathStr c8a.mask, pathStr c8a.extracted,
          pathStr c8a.nonlinear, pathStr c8a.dbm_nii] ∧
     List.Pairwise (fun x y => x ≠ y) (cpSrcs (runPipeline c8cfg c8w).events) ∧
     pathStr c8a.raw ∉ cpSrcs (runPipeline c8cfg c8w).events ∧
     pathStr c8a.norm ∉ cpSrcs (runPipeline c8cfg c8w).events ∧
     pathStr c8a.norm_xfm ∉ cpSrcs (runPipeline c8cfg c8w).events ∧
     pathStr c8a.nl_xfm ∉ cpSrcs (runPipeline c8cfg c8w).events ∧
     pathStr c8a.dbm ∉ cpSrcs (runPipeline c8cfg c8w).events ∧
     pathStr c8a.dbm_reshaped ∉ cpSrcs (runPipeline c8cfg c8w).events) :=
  ⟨by decide,
   (claim8_copy_set c8cfg c8w resolvedGz rfl (fun _ => rfl)
      (by decide) (by decide)).2.1 rfl⟩

end DbmMinc
